import Mathlib

/-!
# DHT driver (`src/src/DHT.cpp`): a shallow embedding

The driver bit-bangs one GPIO line.  Its only input from the world is the
sequence of values returned by successive `gpio_get_level` calls, so the world
is modelled as a *pin trace* `trace : Nat → Bool`: `trace i` is the level
returned by the `i`-th poll of the pin (counting from 0).  Every other hardware
call (`gpio_set_direction`, `gpio_set_level`, `ets_delay_us`) returns nothing
that the driver looks at; all calls are recorded, in order, in an event log.

`gpio_get_level` returns 0 or 1, modelled as `Bool` and compared with the
`bool state` of `getSignalLevel`.  `float` members are modelled as exact
rationals (`ℚ`); `uint8_t` values are `Nat` with explicit `% 256`; `int`
values are `Int`.  The frame buffer `dhtData` is a list: reading outside it
gives 0 and writing outside it does nothing (undefined behaviour in the
source); `storeBit_step` shows that the bit loop stays inside.

The counter of `getSignalLevel` is modelled twice: `getSignalLoop` with an
unbounded integer (total, used by `readDHT`, whose timeouts are 85, 56 and 75)
and `getSignalLoop32` with the wrapping 32-bit `int`; the two agree for every
timeout below `2^31 - 1`.

`readDHT` is embedded in two parts, `readFrame` (lines 136-197, up to the end
of the bit loop) and `deriveReading` (lines 199-220); `readFrame` returns a
frame exactly when none of the Signal Timer calls returns `-1`.
-/

/-! ## Hardware interface -/

/-- Pin direction, the two values of `gpio_mode_t` that the driver uses. -/
inductive GpioMode
  | GPIO_MODE_INPUT
  | GPIO_MODE_OUTPUT
deriving DecidableEq, Repr

/-- One observable step of a run: a hardware call, or the entry into
`DHT::getSignalLevel` with its two arguments. -/
inductive Event
  | setDirection (gpio : Nat) (mode : GpioMode)
  | setLevel (gpio : Nat) (level : Nat)
  | delayUs (us : Nat)
  | getLevel (gpio : Nat) (level : Bool)
  | signalTimer (usTimeOut : Int) (state : Bool)
deriving DecidableEq, Repr

/-- State of the world as seen by the driver: how many times the pin has been
polled so far, and the events so far in chronological order. -/
structure Hw where
  polls : Nat
  events : List Event
deriving DecidableEq, Repr

/-- Append one event to the log. -/
def Hw.record (hw : Hw) (e : Event) : Hw :=
  { hw with events := hw.events ++ [e] }

/-- The call `gpio_set_direction(gpio, mode)`. -/
def gpio_set_direction (gpio : Nat) (mode : GpioMode) (hw : Hw) : Hw :=
  hw.record (Event.setDirection gpio mode)

/-- The call `gpio_set_level(gpio, level)`. -/
def gpio_set_level (gpio : Nat) (level : Nat) (hw : Hw) : Hw :=
  hw.record (Event.setLevel gpio level)

/-- The call `ets_delay_us(us)`. -/
def ets_delay_us (us : Nat) (hw : Hw) : Hw :=
  hw.record (Event.delayUs us)

/-- The call `gpio_get_level(gpio)`: returns the next level of the pin trace
and advances the poll counter. -/
def gpio_get_level (trace : Nat → Bool) (gpio : Nat) (hw : Hw) : Bool × Hw :=
  (trace hw.polls,
   { polls := hw.polls + 1,
     events := hw.events ++ [Event.getLevel gpio (trace hw.polls)] })

/-! ## Driver state -/

/-- The class `DHT`: the bound GPIO and the stored Reading. -/
structure DHT where
  DHTgpio : Nat
  humidity : ℚ
  temperature : ℚ
deriving DecidableEq, Repr

/-- Modelled from the spec: the status constants `DHT_OK`, `DHT_TIMEOUT_ERROR`
and `DHT_CHECKSUM_ERROR` are declared in `DHT.h`, which is not among the
sources; the spec describes the result as a tri-state
`OK` / `TIMEOUT` / `CHECKSUM`. -/
inductive DHTStatus
  | DHT_OK
  | DHT_TIMEOUT_ERROR
  | DHT_CHECKSUM_ERROR
deriving DecidableEq, Repr

/-- The constructor `DHT::DHT()`: GPIO 4, humidity 0, temperature 0. -/
def newDHT : DHT :=
  { DHTgpio := 4, humidity := 0, temperature := 0 }

/-- `#define MAXdhtData 5`. -/
def MAXdhtData : Nat := 5

/-- The locals `dhtData`, `byteInx`, `bitInx` of `DHT::readDHT`. -/
structure DecodeState where
  dhtData : List Nat
  byteInx : Nat
  bitInx : Nat
deriving DecidableEq, Repr

/-- Reduction of an integer to the range of a 32-bit `int`
(`-2^31 .. 2^31 - 1`, two's complement wrap-around). -/
def wrapInt32 (x : Int) : Int :=
  (x + 2147483648) % 4294967296 - 2147483648

namespace DHT

/-- `DHT::setDHTgpio`. -/
def setDHTgpio (self : DHT) (gpio : Nat) : DHT :=
  { self with DHTgpio := gpio }

/-- `DHT::getHumidity`. -/
def getHumidity (self : DHT) : ℚ := self.humidity

/-- `DHT::getTemperature`. -/
def getTemperature (self : DHT) : ℚ := self.temperature

/-- `DHT::convertCtoF`: `c * 1.8 + 32`, over exact rationals. -/
def convertCtoF (c : ℚ) : ℚ := c * 1.8 + 32

/-- The `while` loop of `DHT::getSignalLevel` (lines 95-102), entered with the
current value of the counter `uSec`, with the counter as an unbounded integer.
The counter never exceeds `usTimeOut + 1`, so this is exact for
`usTimeOut < 2^31 - 1`, where the 32-bit `int` of the source cannot overflow
(`getSignalLoop32_eq`); `readDHT` only passes 85, 56 and 75.  For
`usTimeOut = 2^31 - 1` the source is `getSignalLoop32`. -/
def getSignalLoop (trace : Nat → Bool) (self : DHT) (usTimeOut : Int) (state : Bool)
    (uSec : Int) (hw : Hw) : Int × Hw :=
  let r := gpio_get_level trace self.DHTgpio hw
  if r.1 = state then
    if uSec > usTimeOut then
      (-1, r.2)
    else
      getSignalLoop trace self usTimeOut state (uSec + 1) (ets_delay_us 1 r.2)
  else
    (uSec, r.2)
termination_by (usTimeOut + 1 - uSec).toNat
decreasing_by omega

/-- `DHT::getSignalLevel(usTimeOut, state)` (lines 91-105). -/
def getSignalLevel (trace : Nat → Bool) (self : DHT) (usTimeOut : Int) (state : Bool)
    (hw : Hw) : Int × Hw :=
  getSignalLoop trace self usTimeOut state 0 (hw.record (Event.signalTimer usTimeOut state))

/-- The `while` loop of `DHT::getSignalLevel` (lines 95-102) with the counter
`uSec` as the 32-bit `int` of the source: `++uSec` wraps around.  With a
wrapping counter the loop need not end, so `fuel` bounds the number of polls;
`none` means that the loop has not returned after `fuel` polls. -/
def getSignalLoop32 (trace : Nat → Bool) (self : DHT) (usTimeOut : Int) (state : Bool) :
    Nat → Int → Hw → Option (Int × Hw)
  | 0, _, _ => none
  | fuel + 1, uSec, hw =>
    let r := gpio_get_level trace self.DHTgpio hw
    if r.1 = state then
      if uSec > usTimeOut then
        some (-1, r.2)
      else
        getSignalLoop32 trace self usTimeOut state fuel (wrapInt32 (uSec + 1))
          (ets_delay_us 1 r.2)
    else
      some (uSec, r.2)

/-- `DHT::getSignalLevel(usTimeOut, state)` (lines 91-105) with the 32-bit
counter, run for at most `fuel` polls. -/
def getSignalLevel32 (trace : Nat → Bool) (self : DHT) (usTimeOut : Int) (state : Bool)
    (fuel : Nat) (hw : Hw) : Option (Int × Hw) :=
  getSignalLoop32 trace self usTimeOut state fuel 0
    (hw.record (Event.signalTimer usTimeOut state))

/-- Lines 189-196 of `DHT::readDHT`: store the bit decided by the measured
high duration `uSec` and advance the indices. -/
def storeBit (st : DecodeState) (uSec : Int) : DecodeState :=
  let dhtData :=
    if uSec > 40 then
      st.dhtData.set st.byteInx ((st.dhtData.getD st.byteInx 0 ||| (1 <<< st.bitInx)) % 256)
    else
      st.dhtData
  if st.bitInx = 0 then
    { dhtData := dhtData, byteInx := (st.byteInx + 1) % 256, bitInx := 7 }
  else
    { dhtData := dhtData, byteInx := st.byteInx, bitInx := (st.bitInx - 1) % 256 }

/-- The `for` loop of `DHT::readDHT` (lines 173-197) with `n` iterations still
to run; `none` is the early `return DHT_TIMEOUT_ERROR`. -/
def bitLoop (trace : Nat → Bool) (self : DHT) : Nat → DecodeState → Hw → Option DecodeState × Hw
  | 0, st, hw => (some st, hw)
  | n + 1, st, hw =>
    let lo := getSignalLevel trace self 56 false hw
    if lo.1 < 0 then (none, lo.2)
    else
      let hi := getSignalLevel trace self 75 true lo.2
      if hi.1 < 0 then (none, hi.2)
      else bitLoop trace self n (storeBit st hi.1) hi.2

/-- Lines 136-197 of `DHT::readDHT`: zero the frame buffer, send the start
signal, await the two acknowledge pulses and run the 40 bit iterations.
Returns the captured frame `dhtData`, or `none` where the source returns
`DHT_TIMEOUT_ERROR`. -/
def readFrame (trace : Nat → Bool) (self : DHT) (hw : Hw) : Option (List Nat) × Hw :=
  let st : DecodeState := { dhtData := List.replicate MAXdhtData 0, byteInx := 0, bitInx := 7 }
  let hw := gpio_set_direction self.DHTgpio GpioMode.GPIO_MODE_OUTPUT hw
  let hw := gpio_set_level self.DHTgpio 0 hw
  let hw := ets_delay_us 18000 hw
  let hw := gpio_set_level self.DHTgpio 1 hw
  let hw := ets_delay_us 25 hw
  let hw := gpio_set_direction self.DHTgpio GpioMode.GPIO_MODE_INPUT hw
  let a := getSignalLevel trace self 85 false hw
  if a.1 < 0 then (none, a.2)
  else
    let b := getSignalLevel trace self 85 true a.2
    if b.1 < 0 then (none, b.2)
    else
      let r := bitLoop trace self 40 st b.2
      (r.1.map (fun s => s.dhtData), r.2)

/-- Lines 199-220 of `DHT::readDHT`: derive humidity and temperature from the
captured frame, store them in the driver, then compare the checksum. -/
def deriveReading (self : DHT) (dhtData : List Nat) : DHTStatus × DHT :=
  let humidity : ℚ := (dhtData.getD 0 0 : ℚ)
  let humidity : ℚ := humidity + ((dhtData.getD 1 0 &&& 0x0f : Nat) : ℚ) * 0.1
  let temperature : ℚ := (dhtData.getD 2 0 : ℚ)
  let temperature : ℚ := temperature + ((dhtData.getD 3 0 &&& 0x0f : Nat) : ℚ) * 0.1
  let temperature : ℚ :=
    if dhtData.getD 2 0 &&& 0x80 ≠ 0 then temperature * (-1) else temperature
  let temperature : ℚ := convertCtoF temperature
  let self : DHT := { self with humidity := humidity, temperature := temperature }
  if dhtData.getD 4 0
      = ((dhtData.getD 0 0 + dhtData.getD 1 0 + dhtData.getD 2 0 + dhtData.getD 3 0) &&& 0xFF) then
    (DHTStatus.DHT_OK, self)
  else
    (DHTStatus.DHT_CHECKSUM_ERROR, self)

/-- `DHT::readDHT` (lines 134-221): status, driver state after the call, and
world after the call. -/
def readDHT (trace : Nat → Bool) (self : DHT) (hw : Hw) : DHTStatus × DHT × Hw :=
  let r := readFrame trace self hw
  match r.1 with
  | none => (DHTStatus.DHT_TIMEOUT_ERROR, self, r.2)
  | some dhtData =>
    let d := deriveReading self dhtData
    (d.1, d.2, r.2)

end DHT

/-! ## Pin traces -/

/-- Starting at poll `p` the pin reads `state` on exactly `n` consecutive
polls and then reads the other level. -/
def Pulse (trace : Nat → Bool) (p : Nat) (state : Bool) (n : Nat) : Prop :=
  (∀ i, i < n → trace (p + i) = state) ∧ trace (p + n) = !state

instance (trace : Nat → Bool) (p : Nat) (state : Bool) (n : Nat) :
    Decidable (Pulse trace p state n) := by
  unfold Pulse; infer_instance

/-- Starting at poll `p` the pin stays at `state` for at least `n` polls. -/
def Stuck (trace : Nat → Bool) (p : Nat) (state : Bool) (n : Nat) : Prop :=
  ∀ i, i < n → trace (p + i) = state

instance (trace : Nat → Bool) (p : Nat) (state : Bool) (n : Nat) :
    Decidable (Stuck trace p state n) := by
  unfold Stuck; infer_instance

/-- Each awaited pulse `(state, n)` is measured where the previous measurement
stopped: a measurement of `n` consumes `n + 1` polls. -/
def PulseTrain (trace : Nat → Bool) : Nat → List (Bool × Nat) → Prop
  | _, [] => True
  | p, (s, n) :: rest => Pulse trace p s n ∧ PulseTrain trace (p + n + 1) rest

instance instDecidablePulseTrain (trace : Nat → Bool) :
    (p : Nat) → (ps : List (Bool × Nat)) → Decidable (PulseTrain trace p ps)
  | _, [] => isTrue trivial
  | p, (s, n) :: rest =>
    have := instDecidablePulseTrain trace (p + n + 1) rest
    by unfold PulseTrain; infer_instance

/-- The awaited pulses `ps` are measured one after another from poll `p` on,
and from the poll where the last measurement stopped the pin stays at `state`
for at least `m` polls. -/
def StuckAfter (trace : Nat → Bool) (state : Bool) (m : Nat) : Nat → List (Bool × Nat) → Prop
  | p, [] => Stuck trace p state m
  | p, (s, n) :: rest => Pulse trace p s n ∧ StuckAfter trace state m (p + n + 1) rest

instance instDecidableStuckAfter (trace : Nat → Bool) (state : Bool) (m : Nat) :
    (p : Nat) → (ps : List (Bool × Nat)) → Decidable (StuckAfter trace state m p ps)
  | _, [] => by unfold StuckAfter; infer_instance
  | p, (s, n) :: rest =>
    have := instDecidableStuckAfter trace state m (p + n + 1) rest
    by unfold StuckAfter; infer_instance

/-- The pulses awaited by the bit loop for the measured `(low, high)` durations
of each bit. -/
def dataPulses : List (Nat × Nat) → List (Bool × Nat)
  | [] => []
  | (lo, hi) :: rest => (false, lo) :: (true, hi) :: dataPulses rest

/-- The 82 pulses awaited by one read: acknowledge low, acknowledge high, then
a low marker and a high data pulse per bit. -/
def framePulses (ackLow ackHigh : Nat) (bits : List (Nat × Nat)) : List (Bool × Nat) :=
  (false, ackLow) :: (true, ackHigh) :: dataPulses bits

/-- No awaited pulse of a read times out: 40 bits, and every measured duration
is at most the largest value the Signal Timer returns for its window
(`usTimeOut + 1`). -/
def InWindows (ackLow ackHigh : Nat) (bits : List (Nat × Nat)) : Prop :=
  ackLow ≤ 86 ∧ ackHigh ≤ 86 ∧ bits.length = 40 ∧ ∀ b ∈ bits, b.1 ≤ 57 ∧ b.2 ≤ 76

instance (ackLow ackHigh : Nat) (bits : List (Nat × Nat)) :
    Decidable (InWindows ackLow ackHigh bits) := by
  unfold InWindows; infer_instance

/-- Bit `k` (0..39) of a frame in transmission order, most significant bit of
each byte first. -/
def frameBit (frame : List Nat) (k : Nat) : Bool :=
  (frame.getD (k / 8) 0).testBit (7 - k % 8)

/-- The poll results that make up a list of awaited pulses: `n` polls at the
awaited level, then one poll at the other level. -/
def pulseLevels : List (Bool × Nat) → List Bool
  | [] => []
  | (s, n) :: rest => List.replicate n s ++ (!s) :: pulseLevels rest

/-- A pin trace that replays `levels` and then stays at `idle`. -/
def traceOf (levels : List Bool) (idle : Bool) : Nat → Bool :=
  fun i => levels.getD i idle

/-- Measured `(low, high)` durations that transmit the bits of `frame`, most
significant bit of each byte first: a 50 µs marker, then 70 µs for a `1` and
27 µs for a `0`. -/
def frameDurations (frame : List Nat) : List (Nat × Nat) :=
  (List.range (8 * frame.length)).map
    (fun k => (50, if frameBit frame k then 70 else 27))

/-- A complete sensor answer for `frame`: 80 µs acknowledge low, 80 µs
acknowledge high, the 40 data bits, then the line idles high. -/
def sensorTrace (frame : List Nat) : Nat → Bool :=
  traceOf (pulseLevels (framePulses 80 80 (frameDurations frame))) true

/-- The world before any hardware call. -/
def Hw.init : Hw := { polls := 0, events := [] }

/-- A sensor answer that stops in the last bit: both acknowledge pulses, 39
complete bits, the 50 µs marker of bit 40, and then the line stays high. -/
def lastBitStuckTrace : Nat → Bool :=
  traceOf (pulseLevels
    (framePulses 80 80 (List.replicate 39 (50, 27)) ++ [(false, 50)])) true

/-- The hardware calls of `n` rounds of the Signal Timer loop on which the pin
reads `state`: a poll, then a one-microsecond delay. -/
def pollEvents (gpio : Nat) (state : Bool) : Nat → List Event
  | 0 => []
  | n + 1 => Event.getLevel gpio state :: Event.delayUs 1 :: pollEvents gpio state n

/-- Measured durations on the decision threshold: bit `k` has a low marker of
`k` µs, and a high pulse of 40 µs for even `k`, 41 µs for odd `k`. -/
def boundaryDurations : List (Nat × Nat) :=
  (List.range 40).map (fun k => (k, if k % 2 = 0 then 40 else 41))

/-- A pin trace that answers with `boundaryDurations`. -/
def boundaryTrace : Nat → Bool :=
  traceOf (pulseLevels (framePulses 80 80 boundaryDurations)) true

/-- Whether an event is a poll of the pin (`gpio_get_level`). -/
def isPoll : Event → Bool
  | Event.getLevel _ _ => true
  | _ => false

/-- Whether an event is a delay (`ets_delay_us`). -/
def isDelay : Event → Bool
  | Event.delayUs _ => true
  | _ => false

/-- A pin that reads low on 86 consecutive polls and high on the next one. -/
def lateEdgeTrace : Nat → Bool :=
  traceOf (List.replicate 86 false ++ [true]) true

/-- The Signal Timer calls recorded in a log, in order, as
`(usTimeOut, state)`. -/
def signalTimerCalls : List Event → List (Int × Bool)
  | [] => []
  | Event.signalTimer t s :: es => (t, s) :: signalTimerCalls es
  | Event.setDirection _ _ :: es => signalTimerCalls es
  | Event.setLevel _ _ :: es => signalTimerCalls es
  | Event.delayUs _ :: es => signalTimerCalls es
  | Event.getLevel _ _ :: es => signalTimerCalls es

/-- The Signal Timer calls of `n` bit iterations: a low marker with timeout
56, then a high data pulse with timeout 75. -/
def bitSchedule : Nat → List (Int × Bool)
  | 0 => []
  | n + 1 => (56, false) :: (75, true) :: bitSchedule n

/-- The Signal Timer calls of one complete read: acknowledge low and high with
timeout 85, then 40 bit iterations. -/
def timerSchedule : List (Int × Bool) :=
  (85, false) :: (85, true) :: bitSchedule 40

/-- The hardware calls of the start signal (lines 147-157), as log entries. -/
def startEvents (gpio : Nat) : List Event :=
  [Event.setDirection gpio GpioMode.GPIO_MODE_OUTPUT, Event.setLevel gpio 0,
   Event.delayUs 18000, Event.setLevel gpio 1, Event.delayUs 25,
   Event.setDirection gpio GpioMode.GPIO_MODE_INPUT]

/-- The world after the start signal: the poll counter is untouched and the
six hardware calls are in the log. -/
def startSignal (self : DHT) (hw : Hw) : Hw :=
  { hw with events := hw.events ++ startEvents self.DHTgpio }

/-- Following the spec (§4.2): the Signal Timer calls of a schedule are made
one after another, and the run stops after the first call that returns the
sentinel.  Returns the values returned by the calls made, in order, and the
world afterwards. -/
def runTimers (trace : Nat → Bool) (self : DHT) : List (Int × Bool) → Hw → List Int × Hw
  | [], hw => ([], hw)
  | (t, s) :: rest, hw =>
    let r := DHT.getSignalLevel trace self t s hw
    if r.1 < 0 then ([r.1], r.2)
    else ((r.1 :: (runTimers trace self rest r.2).1), (runTimers trace self rest r.2).2)

/-- The events of a Signal Timer call that timed out: `usTimeOut + 2` polls
that all read `state`, with a one-microsecond delay between them. -/
def timedOutCall (gpio : Nat) (usTimeOut : Int) (state : Bool) : List Event :=
  Event.signalTimer usTimeOut state ::
    (pollEvents gpio state (usTimeOut + 1).toNat ++ [Event.getLevel gpio state])

/-- An event that neither drives the pin nor changes its direction. -/
def isPassive : Event → Bool
  | Event.setDirection _ _ => false
  | Event.setLevel _ _ => false
  | _ => true

/-- Pin-mode discipline over a log, given the current direction of the pin
(`none` when unknown): the level is set only in output mode and polled only in
input mode. -/
def pinDiscipline : Option GpioMode → List Event → Bool
  | _, [] => true
  | _, Event.setDirection _ m :: es => pinDiscipline (some m) es
  | mode, Event.setLevel _ _ :: es =>
    decide (mode = some GpioMode.GPIO_MODE_OUTPUT) && pinDiscipline mode es
  | mode, Event.getLevel _ _ :: es =>
    decide (mode = some GpioMode.GPIO_MODE_INPUT) && pinDiscipline mode es
  | mode, Event.delayUs _ :: es => pinDiscipline mode es
  | mode, Event.signalTimer _ _ :: es => pinDiscipline mode es

/-- A pin trace of eight data bits, each a 50 µs marker and a 70 µs pulse. -/
def eightOnesTrace : Nat → Bool :=
  traceOf (pulseLevels (dataPulses (List.replicate 8 (50, 70)))) true

/-- The decode state after the eight bits of `eightOnesTrace`. -/
def eightOnesState : DecodeState :=
  (List.replicate 8 ((50 : Nat), (70 : Nat))).foldl (fun s b => DHT.storeBit s (b.2 : Int))
    { dhtData := List.replicate MAXdhtData 0, byteInx := 0, bitInx := 7 }

/-- A driver bound to GPIO 4 whose stored Reading is left from an earlier
read. -/
def usedDHT : DHT :=
  { DHTgpio := 4, humidity := 99, temperature := -40 }

/-! ## The Signal Timer -/

theorem getSignalLoop_pulse (trace : Nat → Bool) (self : DHT) (usTimeOut : Int) (state : Bool) :
    ∀ (n : Nat) (uSec : Int) (hw : Hw), Pulse trace hw.polls state n →
      uSec + n ≤ usTimeOut + 1 →
      (DHT.getSignalLoop trace self usTimeOut state uSec hw).1 = uSec + n ∧
      (DHT.getSignalLoop trace self usTimeOut state uSec hw).2.polls = hw.polls + n + 1 := by
  intro n
  induction n with
  | zero =>
    intro uSec hw hp _
    have h0 : trace hw.polls = !state := by simpa using hp.2
    rw [DHT.getSignalLoop]
    simp [gpio_get_level, h0]
  | succ n ih =>
    intro uSec hw hp hle
    have h0 : trace hw.polls = state := by simpa using hp.1 0 (Nat.succ_pos n)
    have hlt : ¬ uSec > usTimeOut := by omega
    rw [DHT.getSignalLoop]
    simp only [gpio_get_level, h0, if_true, hlt, if_false]
    have hp2 : Pulse trace (ets_delay_us 1
        { polls := hw.polls + 1,
          events := hw.events ++ [Event.getLevel self.DHTgpio state] }).polls state n := by
      refine ⟨fun i hi => ?_, ?_⟩
      · have := hp.1 (i + 1) (by omega)
        simpa [ets_delay_us, Hw.record, Nat.add_assoc, Nat.add_comm 1 i] using this
      · have := hp.2
        simpa [ets_delay_us, Hw.record, Nat.add_assoc, Nat.add_comm 1 n] using this
    have := ih (uSec + 1) _ hp2 (by push_cast at hle ⊢; omega)
    refine ⟨?_, ?_⟩
    · rw [this.1]; push_cast; ring
    · rw [this.2]; simp [ets_delay_us, Hw.record]; omega

theorem getSignalLevel_pulse (trace : Nat → Bool) (self : DHT) (usTimeOut : Int) (state : Bool)
    (n : Nat) (hw : Hw) (hp : Pulse trace hw.polls state n) (hn : (n : Int) ≤ usTimeOut + 1) :
    (DHT.getSignalLevel trace self usTimeOut state hw).1 = n ∧
    (DHT.getSignalLevel trace self usTimeOut state hw).2.polls = hw.polls + n + 1 := by
  have h := getSignalLoop_pulse trace self usTimeOut state n 0
    (hw.record (Event.signalTimer usTimeOut state)) hp (by omega)
  simpa [DHT.getSignalLevel, Hw.record] using h

theorem getSignalLoop_pulse_events (trace : Nat → Bool) (self : DHT) (usTimeOut : Int)
    (state : Bool) :
    ∀ (n : Nat) (uSec : Int) (hw : Hw), Pulse trace hw.polls state n →
      uSec + n ≤ usTimeOut + 1 →
      (DHT.getSignalLoop trace self usTimeOut state uSec hw).2.events
        = hw.events ++ (pollEvents self.DHTgpio state n
            ++ [Event.getLevel self.DHTgpio (!state)]) := by
  intro n
  induction n with
  | zero =>
    intro uSec hw hp _
    have h0 : trace hw.polls = !state := by simpa using hp.2
    rw [DHT.getSignalLoop]
    simp [gpio_get_level, h0, pollEvents]
  | succ n ih =>
    intro uSec hw hp hle
    have h0 : trace hw.polls = state := by simpa using hp.1 0 (Nat.succ_pos n)
    have hlt : ¬ uSec > usTimeOut := by omega
    rw [DHT.getSignalLoop]
    simp only [gpio_get_level, h0, if_true, hlt, if_false]
    have hp2 : Pulse trace (ets_delay_us 1
        { polls := hw.polls + 1,
          events := hw.events ++ [Event.getLevel self.DHTgpio state] }).polls state n := by
      refine ⟨fun i hi => ?_, ?_⟩
      · have := hp.1 (i + 1) (by omega)
        simpa [ets_delay_us, Hw.record, Nat.add_assoc, Nat.add_comm 1 i] using this
      · have := hp.2
        simpa [ets_delay_us, Hw.record, Nat.add_assoc, Nat.add_comm 1 n] using this
    rw [ih (uSec + 1) _ hp2 (by push_cast at hle ⊢; omega)]
    simp [ets_delay_us, Hw.record, pollEvents]

theorem getSignalLoop_stuck (trace : Nat → Bool) (self : DHT) (usTimeOut : Int) (state : Bool) :
    ∀ (m : Nat) (uSec : Int) (hw : Hw), Stuck trace hw.polls state (m + 1) →
      uSec + m = usTimeOut + 1 →
      (DHT.getSignalLoop trace self usTimeOut state uSec hw).1 = -1 := by
  intro m
  induction m with
  | zero =>
    intro uSec hw hs he
    have h0 : trace hw.polls = state := by simpa using hs 0 (by omega)
    have hgt : uSec > usTimeOut := by omega
    rw [DHT.getSignalLoop]
    simp [gpio_get_level, h0, hgt]
  | succ m ih =>
    intro uSec hw hs he
    have h0 : trace hw.polls = state := by simpa using hs 0 (by omega)
    have hlt : ¬ uSec > usTimeOut := by omega
    rw [DHT.getSignalLoop]
    simp only [gpio_get_level, h0, if_true, hlt, if_false]
    apply ih
    · intro i hi
      have := hs (i + 1) (by omega)
      simpa [ets_delay_us, Hw.record, Nat.add_assoc, Nat.add_comm 1 i] using this
    · push_cast at he ⊢; omega

theorem getSignalLevel_stuck (trace : Nat → Bool) (self : DHT) (usTimeOut : Int) (state : Bool)
    (hw : Hw) (hT : 0 ≤ usTimeOut + 1) (hs : Stuck trace hw.polls state (usTimeOut + 2).toNat) :
    (DHT.getSignalLevel trace self usTimeOut state hw).1 = -1 := by
  have e : (usTimeOut + 2).toNat = (usTimeOut + 1).toNat + 1 := by omega
  rw [e] at hs
  have h := getSignalLoop_stuck trace self usTimeOut state (usTimeOut + 1).toNat 0
    (hw.record (Event.signalTimer usTimeOut state)) hs (by omega)
  simpa [DHT.getSignalLevel] using h

/-! ## The bit loop on a pulse train -/

theorem bitLoop_pulses (trace : Nat → Bool) (self : DHT) :
    ∀ (bits : List (Nat × Nat)) (st : DecodeState) (hw : Hw),
      PulseTrain trace hw.polls (dataPulses bits) →
      (∀ b ∈ bits, b.1 ≤ 57 ∧ b.2 ≤ 76) →
      (DHT.bitLoop trace self bits.length st hw).1
        = some (bits.foldl (fun s b => DHT.storeBit s (b.2 : Int)) st) := by
  intro bits
  induction bits with
  | nil => intro st hw _ _; simp [DHT.bitLoop]
  | cons b rest ih =>
    intro st hw hp hb
    obtain ⟨lo, hi⟩ := b
    simp only [dataPulses, PulseTrain] at hp
    obtain ⟨hlo, hhi, hrest⟩ := hp
    have hb0 := hb (lo, hi) (by simp)
    have h1 := getSignalLevel_pulse trace self 56 false lo hw hlo (by omega)
    have hhi2 : Pulse trace (DHT.getSignalLevel trace self 56 false hw).2.polls true hi := by
      rw [h1.2]; exact hhi
    have h2 := getSignalLevel_pulse trace self 75 true hi _ hhi2 (by omega)
    have hrest2 : PulseTrain trace
        (DHT.getSignalLevel trace self 75 true
          (DHT.getSignalLevel trace self 56 false hw).2).2.polls (dataPulses rest) := by
      rw [h2.2, h1.2]; exact hrest
    have h3 := ih (DHT.storeBit st (hi : Int)) _ hrest2
      (fun b hbm => hb b (List.mem_cons_of_mem _ hbm))
    simp only [List.length_cons, DHT.bitLoop, List.foldl_cons]
    rw [h1.1]
    have hn1 : ¬ ((lo : Int) < 0) := by omega
    simp only [hn1, if_false]
    rw [h2.1]
    have hn2 : ¬ ((hi : Int) < 0) := by omega
    simp only [hn2, if_false]
    exact h3

theorem readFrame_pulses (trace : Nat → Bool) (self : DHT) (hw : Hw)
    (ackLow ackHigh : Nat) (bits : List (Nat × Nat))
    (hp : PulseTrain trace hw.polls (framePulses ackLow ackHigh bits))
    (hw' : InWindows ackLow ackHigh bits) :
    (DHT.readFrame trace self hw).1
      = some (bits.foldl (fun s b => DHT.storeBit s (b.2 : Int))
          { dhtData := List.replicate MAXdhtData 0, byteInx := 0, bitInx := 7 }).dhtData := by
  obtain ⟨ha, hb, hlen, hbits⟩ := hw'
  simp only [framePulses, PulseTrain] at hp
  obtain ⟨hlo, hhi, hrest⟩ := hp
  unfold DHT.readFrame
  simp only []
  generalize hq : gpio_set_direction self.DHTgpio GpioMode.GPIO_MODE_INPUT
      (ets_delay_us 25 (gpio_set_level self.DHTgpio 1 (ets_delay_us 18000
        (gpio_set_level self.DHTgpio 0
          (gpio_set_direction self.DHTgpio GpioMode.GPIO_MODE_OUTPUT hw))))) = hw0
  have hq0 : hw0.polls = hw.polls := by
    rw [← hq]; simp [gpio_set_direction, gpio_set_level, ets_delay_us, Hw.record]
  have hlo' : Pulse trace hw0.polls false ackLow := by rw [hq0]; exact hlo
  have h1 := getSignalLevel_pulse trace self 85 false ackLow hw0 hlo' (by omega)
  have hhi' : Pulse trace (DHT.getSignalLevel trace self 85 false hw0).2.polls true ackHigh := by
    rw [h1.2, hq0]; exact hhi
  have h2 := getSignalLevel_pulse trace self 85 true ackHigh _ hhi' (by omega)
  have hrest' : PulseTrain trace
      (DHT.getSignalLevel trace self 85 true
        (DHT.getSignalLevel trace self 85 false hw0).2).2.polls (dataPulses bits) := by
    rw [h2.2, h1.2, hq0]; exact hrest
  have h3 := bitLoop_pulses trace self bits
    { dhtData := List.replicate MAXdhtData 0, byteInx := 0, bitInx := 7 } _ hrest' hbits
  rw [hlen] at h3
  rw [h1.1]
  have hn1 : ¬ ((ackLow : Int) < 0) := by omega
  simp only [hn1, if_false]
  rw [h2.1]
  have hn2 : ¬ ((ackHigh : Int) < 0) := by omega
  simp only [hn2, if_false]
  rw [h3]
  rfl

theorem bitLoop_stuck_high (trace : Nat → Bool) (self : DHT) (lo r : Nat) (hlo : lo ≤ 57) :
    ∀ (bits : List (Nat × Nat)) (st : DecodeState) (hw : Hw),
      StuckAfter trace true 77 hw.polls (dataPulses bits ++ [(false, lo)]) →
      (∀ b ∈ bits, b.1 ≤ 57 ∧ b.2 ≤ 76) →
      (DHT.bitLoop trace self (bits.length + (r + 1)) st hw).1 = none := by
  intro bits
  induction bits with
  | nil =>
    intro st hw hs _
    simp only [dataPulses, List.nil_append, StuckAfter] at hs
    obtain ⟨hp, hstuck⟩ := hs
    have h1 := getSignalLevel_pulse trace self 56 false lo hw hp (by omega)
    have hstuck2 : Stuck trace (DHT.getSignalLevel trace self 56 false hw).2.polls true
        ((75 : Int) + 2).toNat := by
      rw [h1.2]; exact hstuck
    have h2 := getSignalLevel_stuck trace self 75 true _ (by norm_num) hstuck2
    simp only [List.length_nil, Nat.zero_add, DHT.bitLoop]
    rw [h1.1]
    have hn1 : ¬ ((lo : Int) < 0) := by omega
    simp only [hn1, if_false]
    rw [h2]
    simp
  | cons b rest ih =>
    intro st hw hs hb
    obtain ⟨l, h⟩ := b
    simp only [dataPulses, List.cons_append, StuckAfter] at hs
    obtain ⟨hl, hh, hrest⟩ := hs
    have hb0 := hb (l, h) (by simp)
    have h1 := getSignalLevel_pulse trace self 56 false l hw hl (by omega)
    have hh2 : Pulse trace (DHT.getSignalLevel trace self 56 false hw).2.polls true h := by
      rw [h1.2]; exact hh
    have h2 := getSignalLevel_pulse trace self 75 true h _ hh2 (by omega)
    have hrest2 : StuckAfter trace true 77
        (DHT.getSignalLevel trace self 75 true
          (DHT.getSignalLevel trace self 56 false hw).2).2.polls
        (dataPulses rest ++ [(false, lo)]) := by
      rw [h2.2, h1.2]; exact hrest
    have h3 := ih (DHT.storeBit st (h : Int)) _ hrest2
      (fun b hbm => hb b (List.mem_cons_of_mem _ hbm))
    have e : (l, h) :: rest = [(l, h)] ++ rest := rfl
    have elen : ((l, h) :: rest).length + (r + 1) = (rest.length + (r + 1)) + 1 := by
      simp only [List.length_cons]; omega
    rw [elen]
    simp only [DHT.bitLoop]
    rw [h1.1]
    have hn1 : ¬ ((l : Int) < 0) := by omega
    simp only [hn1, if_false]
    rw [h2.1]
    have hn2 : ¬ ((h : Int) < 0) := by omega
    simp only [hn2, if_false]
    exact h3

theorem readFrame_stuck_high (trace : Nat → Bool) (self : DHT) (hw : Hw)
    (ackLow ackHigh lo : Nat) (bits : List (Nat × Nat))
    (hs : StuckAfter trace true 77 hw.polls (framePulses ackLow ackHigh bits ++ [(false, lo)]))
    (ha : ackLow ≤ 86) (hb : ackHigh ≤ 86) (hlo : lo ≤ 57)
    (hlen : bits.length + 1 ≤ 40) (hbits : ∀ b ∈ bits, b.1 ≤ 57 ∧ b.2 ≤ 76) :
    (DHT.readFrame trace self hw).1 = none := by
  simp only [framePulses, List.cons_append, StuckAfter] at hs
  obtain ⟨hl, hh, hrest⟩ := hs
  unfold DHT.readFrame
  simp only []
  generalize hq : gpio_set_direction self.DHTgpio GpioMode.GPIO_MODE_INPUT
      (ets_delay_us 25 (gpio_set_level self.DHTgpio 1 (ets_delay_us 18000
        (gpio_set_level self.DHTgpio 0
          (gpio_set_direction self.DHTgpio GpioMode.GPIO_MODE_OUTPUT hw))))) = hw0
  have hq0 : hw0.polls = hw.polls := by
    rw [← hq]; simp [gpio_set_direction, gpio_set_level, ets_delay_us, Hw.record]
  have hl' : Pulse trace hw0.polls false ackLow := by rw [hq0]; exact hl
  have h1 := getSignalLevel_pulse trace self 85 false ackLow hw0 hl' (by omega)
  have hh' : Pulse trace (DHT.getSignalLevel trace self 85 false hw0).2.polls true ackHigh := by
    rw [h1.2, hq0]; exact hh
  have h2 := getSignalLevel_pulse trace self 85 true ackHigh _ hh' (by omega)
  have hrest' : StuckAfter trace true 77
      (DHT.getSignalLevel trace self 85 true
        (DHT.getSignalLevel trace self 85 false hw0).2).2.polls
      (dataPulses bits ++ [(false, lo)]) := by
    rw [h2.2, h1.2, hq0]; exact hrest
  have h3 := bitLoop_stuck_high trace self lo (39 - bits.length) hlo bits
    { dhtData := List.replicate MAXdhtData 0, byteInx := 0, bitInx := 7 } _ hrest' hbits
  have e40 : bits.length + (39 - bits.length + 1) = 40 := by omega
  rw [e40] at h3
  rw [h1.1]
  have hn1 : ¬ ((ackLow : Int) < 0) := by omega
  simp only [hn1, if_false]
  rw [h2.1]
  have hn2 : ¬ ((ackHigh : Int) < 0) := by omega
  simp only [hn2, if_false]
  rw [h3]
  rfl

/-! ## Assembling bytes -/

theorem getD_set_self (l : List Nat) (j v : Nat) (hj : j < l.length) :
    (l.set j v).getD j 0 = v := by
  simp [List.getElem?_set, hj]

theorem getD_set_other (l : List Nat) (j j' v : Nat) (hj : j ≠ j') :
    (l.set j v).getD j' 0 = l.getD j' 0 := by
  simp [List.getElem?_set, hj]

theorem testBit_orBit (v b i : Nat) (hi : i < 8) :
    ((v ||| (1 <<< b)) % 256).testBit i = (v.testBit i || decide (b = i)) := by
  have h256 : (256 : Nat) = 2 ^ 8 := by norm_num
  rw [h256, Nat.testBit_mod_two_pow, Nat.testBit_or, Nat.one_shiftLeft, Nat.testBit_two_pow]
  simp [hi]

theorem orBit_lt (v b : Nat) : (v ||| (1 <<< b)) % 256 < 256 :=
  Nat.mod_lt _ (by norm_num)

theorem storeBit_step (st : DecodeState) (u : Int) (k : Nat) (hk : k < 40)
    (hbyte : st.byteInx = k / 8) (hbit : st.bitInx = 7 - k % 8)
    (hlen : st.dhtData.length = 5) (hlt : ∀ j, st.dhtData.getD j 0 < 256) :
    (DHT.storeBit st u).byteInx = (k + 1) / 8 ∧
    (DHT.storeBit st u).bitInx = 7 - (k + 1) % 8 ∧
    (DHT.storeBit st u).dhtData.length = 5 ∧
    (∀ j, (DHT.storeBit st u).dhtData.getD j 0 < 256) ∧
    ∀ m, frameBit (DHT.storeBit st u).dhtData m
      = (frameBit st.dhtData m || (decide (m = k) && decide (u > 40))) := by
  have hidx : (if st.bitInx = 0 then (st.byteInx + 1) % 256 else st.byteInx) = (k + 1) / 8 ∧
      (if st.bitInx = 0 then 7 else (st.bitInx - 1) % 256) = 7 - (k + 1) % 8 := by
    rw [hbyte, hbit]; split <;> omega
  have hb1 : (DHT.storeBit st u).byteInx = (k + 1) / 8 := by
    rw [← hidx.1]; unfold DHT.storeBit; simp only []; split <;> rfl
  have hb2 : (DHT.storeBit st u).bitInx = 7 - (k + 1) % 8 := by
    rw [← hidx.2]; unfold DHT.storeBit; simp only []; split <;> rfl
  by_cases hu : u > 40
  · have hd : (DHT.storeBit st u).dhtData
        = st.dhtData.set (k / 8) ((st.dhtData.getD (k / 8) 0 ||| (1 <<< (7 - k % 8))) % 256) := by
      unfold DHT.storeBit; simp only [hu, if_true, hbyte, hbit]; split <;> rfl
    refine ⟨hb1, hb2, ?_, ?_, ?_⟩
    · rw [hd]; simp [hlen]
    · intro j
      rw [hd]
      by_cases hj : k / 8 = j
      · subst hj
        rw [getD_set_self _ _ _ (by omega)]
        exact orBit_lt _ _
      · rw [getD_set_other _ _ _ _ hj]; exact hlt j
    · intro m
      rw [hd]
      unfold frameBit
      by_cases hj : k / 8 = m / 8
      · rw [← hj, getD_set_self _ _ _ (by omega), testBit_orBit _ _ _ (by omega)]
        have : (7 - k % 8 = 7 - m % 8) ↔ m = k := by omega
        simp [hu, this]
      · rw [getD_set_other _ _ _ _ hj]
        have : m ≠ k := fun h => hj (by rw [h])
        simp [this]
  · have hd : (DHT.storeBit st u).dhtData = st.dhtData := by
      unfold DHT.storeBit; simp only [hu, if_false]; split <;> rfl
    refine ⟨hb1, hb2, ?_, ?_, ?_⟩
    · rw [hd]; exact hlen
    · intro j; rw [hd]; exact hlt j
    · intro m; rw [hd]; simp [hu]

theorem decode_fold (bits : List (Nat × Nat)) :
    bits.length ≤ 40 →
    (bits.foldl (fun s b => DHT.storeBit s (b.2 : Int))
        { dhtData := List.replicate MAXdhtData 0, byteInx := 0, bitInx := 7 }).byteInx
      = bits.length / 8 ∧
    (bits.foldl (fun s b => DHT.storeBit s (b.2 : Int))
        { dhtData := List.replicate MAXdhtData 0, byteInx := 0, bitInx := 7 }).bitInx
      = 7 - bits.length % 8 ∧
    (bits.foldl (fun s b => DHT.storeBit s (b.2 : Int))
        { dhtData := List.replicate MAXdhtData 0, byteInx := 0, bitInx := 7 }).dhtData.length = 5 ∧
    (∀ j, (bits.foldl (fun s b => DHT.storeBit s (b.2 : Int))
        { dhtData := List.replicate MAXdhtData 0, byteInx := 0, bitInx := 7 }).dhtData.getD j 0
          < 256) ∧
    ∀ m, frameBit (bits.foldl (fun s b => DHT.storeBit s (b.2 : Int))
        { dhtData := List.replicate MAXdhtData 0, byteInx := 0, bitInx := 7 }).dhtData m
      = (decide (m < bits.length) && decide (40 < (bits.getD m (0, 0)).2)) := by
  induction bits using List.reverseRecOn with
  | nil =>
    intro _
    refine ⟨rfl, rfl, rfl, ?_, ?_⟩
    · intro j
      simp only [List.foldl_nil, MAXdhtData, List.getD_eq_getElem?_getD, List.getElem?_replicate]
      split <;> simp
    · intro m
      simp only [List.foldl_nil, MAXdhtData, frameBit, List.getD_eq_getElem?_getD,
        List.getElem?_replicate]
      split <;> simp
  | append_singleton l a ih =>
    intro hlen
    rw [List.length_append, List.length_singleton] at hlen
    obtain ⟨h1, h2, h3, h4, h5⟩ := ih (by omega)
    rw [List.foldl_append, List.foldl_cons, List.foldl_nil]
    have hs := storeBit_step _ (a.2 : Int) l.length (by omega) h1 h2 h3 h4
    obtain ⟨s1, s2, s3, s4, s5⟩ := hs
    rw [List.length_append, List.length_singleton]
    refine ⟨s1, s2, s3, s4, ?_⟩
    intro m
    rw [s5 m, h5 m]
    rcases Nat.lt_trichotomy m l.length with hm | hm | hm
    · have e : (l ++ [a]).getD m (0, 0) = l.getD m (0, 0) := List.getD_append _ _ _ _ hm
      have hne : m ≠ l.length := by omega
      have hlt : m < l.length + 1 := by omega
      rw [e]; simp [hm, hne, hlt]
    · subst hm
      have e : (l ++ [a]).getD l.length (0, 0) = a := by
        simp [List.getElem?_concat_length]
      rw [e]; simp
    · have hne : m ≠ l.length := by omega
      have hn1 : ¬ m < l.length := by omega
      have hn2 : ¬ m < l.length + 1 := by omega
      simp [hne, hn1, hn2]

theorem frame_ext (f g : List Nat) (hf : f.length = 5) (hg : g.length = 5)
    (hfb : ∀ j, f.getD j 0 < 256) (hgb : ∀ j, g.getD j 0 < 256)
    (h : ∀ m, m < 40 → frameBit f m = frameBit g m) : f = g := by
  have hbyte : ∀ j, j < 5 → f.getD j 0 = g.getD j 0 := by
    intro j hj
    apply Nat.eq_of_testBit_eq
    intro i
    by_cases hi : i < 8
    · have := h (8 * j + (7 - i)) (by omega)
      unfold frameBit at this
      have e1 : (8 * j + (7 - i)) / 8 = j := by omega
      have e2 : 7 - (8 * j + (7 - i)) % 8 = i := by omega
      rwa [e1, e2] at this
    · have hp : (256 : Nat) ≤ 2 ^ i := by
        calc (256 : Nat) = 2 ^ 8 := by norm_num
          _ ≤ 2 ^ i := Nat.pow_le_pow_right (by norm_num) (by omega)
      rw [Nat.testBit_lt_two_pow (lt_of_lt_of_le (hfb j) hp),
        Nat.testBit_lt_two_pow (lt_of_lt_of_le (hgb j) hp)]
  apply List.ext_getElem (by omega)
  intro j h1 h2
  have := hbyte j (by omega)
  simpa [List.getD_eq_getElem?_getD, List.getElem?_eq_getElem h1,
    List.getElem?_eq_getElem h2] using this

theorem readFrame_decodes (trace : Nat → Bool) (self : DHT) (hw : Hw)
    (ackLow ackHigh : Nat) (bits : List (Nat × Nat))
    (hp : PulseTrain trace hw.polls (framePulses ackLow ackHigh bits))
    (hwin : InWindows ackLow ackHigh bits) :
    ∃ frame, (DHT.readFrame trace self hw).1 = some frame ∧ frame.length = 5 ∧
      (∀ j, frame.getD j 0 < 256) ∧
      ∀ m, m < 40 → frameBit frame m = decide (40 < (bits.getD m (0, 0)).2) := by
  have hlen : bits.length = 40 := hwin.2.2.1
  obtain ⟨_, _, h3, h4, h5⟩ := decode_fold bits (by omega)
  refine ⟨_, readFrame_pulses trace self hw ackLow ackHigh bits hp hwin, h3, h4, ?_⟩
  intro m hm
  rw [h5 m, hlen]
  simp [hm]

/-! ## Replayed traces -/

theorem pulseTrain_traceOf (idle : Bool) :
    ∀ (ps : List (Bool × Nat)) (pre : List Bool),
      PulseTrain (traceOf (pre ++ pulseLevels ps) idle) pre.length ps := by
  intro ps
  induction ps with
  | nil => intro pre; trivial
  | cons a rest ih =>
    intro pre
    obtain ⟨s, n⟩ := a
    refine ⟨⟨fun i hi => ?_, ?_⟩, ?_⟩
    · simp only [traceOf, pulseLevels, List.getD_eq_getElem?_getD]
      rw [List.getElem?_append_right (by omega), Nat.add_sub_cancel_left,
        List.getElem?_append_left (by simpa using hi)]
      simp [List.getElem?_replicate, hi]
    · simp only [traceOf, pulseLevels, List.getD_eq_getElem?_getD]
      rw [List.getElem?_append_right (by omega), Nat.add_sub_cancel_left,
        List.getElem?_append_right (by simp)]
      simp
    · have h := ih (pre ++ (List.replicate n s ++ [!s]))
      have e : pre ++ (List.replicate n s ++ [!s]) ++ pulseLevels rest
          = pre ++ pulseLevels ((s, n) :: rest) := by
        simp [pulseLevels]
      have l : (pre ++ (List.replicate n s ++ [!s])).length = pre.length + n + 1 := by
        simp; omega
      rw [e, l] at h
      exact h

theorem pulseTrain_replay (ps : List (Bool × Nat)) (idle : Bool) :
    PulseTrain (traceOf (pulseLevels ps) idle) Hw.init.polls ps := by
  have h := pulseTrain_traceOf idle ps []
  simpa [Hw.init] using h

theorem stuckAfter_traceOf (idle : Bool) (m : Nat) :
    ∀ (ps : List (Bool × Nat)) (pre : List Bool),
      StuckAfter (traceOf (pre ++ pulseLevels ps) idle) idle m pre.length ps := by
  intro ps
  induction ps with
  | nil =>
    intro pre i _
    simp only [traceOf, pulseLevels, List.append_nil, List.getD_eq_getElem?_getD]
    rw [List.getElem?_eq_none (by omega)]
    rfl
  | cons a rest ih =>
    intro pre
    obtain ⟨s, n⟩ := a
    refine ⟨(pulseTrain_traceOf idle ((s, n) :: rest) pre).1, ?_⟩
    have h := ih (pre ++ (List.replicate n s ++ [!s]))
    have e : pre ++ (List.replicate n s ++ [!s]) ++ pulseLevels rest
        = pre ++ pulseLevels ((s, n) :: rest) := by
      simp [pulseLevels]
    have l : (pre ++ (List.replicate n s ++ [!s])).length = pre.length + n + 1 := by
      simp; omega
    rw [e, l] at h
    exact h

theorem readFrame_lastBitStuck (self : DHT) :
    (DHT.readFrame lastBitStuckTrace self Hw.init).1 = none := by
  have hs := stuckAfter_traceOf true 77
    (framePulses 80 80 (List.replicate 39 (50, 27)) ++ [(false, 50)]) []
  refine readFrame_stuck_high lastBitStuckTrace self Hw.init 80 80 50
    (List.replicate 39 (50, 27)) (by simpa [Hw.init, lastBitStuckTrace] using hs)
    (by omega) (by omega) (by omega) (by simp) ?_
  intro b hb
  rw [List.eq_of_mem_replicate hb]
  exact ⟨by omega, by omega⟩

theorem frameDurations_length (frame : List Nat) :
    (frameDurations frame).length = 8 * frame.length := by
  simp [frameDurations]

theorem frameDurations_getD (frame : List Nat) (m : Nat) (hm : m < 8 * frame.length) :
    (frameDurations frame).getD m (0, 0) = (50, if frameBit frame m then 70 else 27) := by
  simp [frameDurations, List.getElem?_map, List.getElem?_range hm]

theorem frameDurations_inWindows (frame : List Nat) (hlen : frame.length = 5) :
    InWindows 80 80 (frameDurations frame) := by
  refine ⟨by omega, by omega, by rw [frameDurations_length, hlen], ?_⟩
  intro b hb
  simp only [frameDurations, List.mem_map, List.mem_range] at hb
  obtain ⟨k, _, rfl⟩ := hb
  refine ⟨by omega, ?_⟩
  show (if frameBit frame k then 70 else 27) ≤ 76
  split <;> omega

theorem getD_lt_of_forall_mem (frame : List Nat) (h : ∀ b ∈ frame, b < 256) :
    ∀ j, frame.getD j 0 < 256 := by
  intro j
  rw [List.getD_eq_getElem?_getD]
  cases hj : frame[j]? with
  | none => simp
  | some v => exact h v (List.getElem?_mem hj)

theorem readFrame_sensorTrace (frame : List Nat) (self : DHT) (hw : Hw)
    (hlen : frame.length = 5) (hbytes : ∀ b ∈ frame, b < 256) (h0 : hw.polls = 0) :
    (DHT.readFrame (sensorTrace frame) self hw).1 = some frame := by
  have hb := getD_lt_of_forall_mem frame hbytes
  have hp : PulseTrain (sensorTrace frame) hw.polls (framePulses 80 80 (frameDurations frame)) := by
    rw [h0]
    exact pulseTrain_traceOf true (framePulses 80 80 (frameDurations frame)) []
  obtain ⟨g, hg, hg5, hgb, hgbit⟩ :=
    readFrame_decodes (sensorTrace frame) self hw 80 80 (frameDurations frame) hp
      (frameDurations_inWindows frame hlen)
  rw [hg]
  congr 1
  apply frame_ext g frame hg5 hlen hgb hb
  intro m hm
  rw [hgbit m hm, frameDurations_getD frame m (by omega)]
  cases frameBit frame m <;> simp

theorem pulse_or_stuck (trace : Nat → Bool) (p : Nat) (state : Bool) :
    ∀ m : Nat, (∃ n, n < m ∧ Pulse trace p state n) ∨ Stuck trace p state m := by
  intro m
  induction m with
  | zero => exact Or.inr (fun i hi => absurd hi (Nat.not_lt_zero i))
  | succ m ih =>
    rcases ih with ⟨n, hn, hp⟩ | hs
    · exact Or.inl ⟨n, by omega, hp⟩
    · by_cases h : trace (p + m) = state
      · refine Or.inr (fun i hi => ?_)
        by_cases him : i < m
        · exact hs i him
        · have : i = m := by omega
          rw [this]; exact h
      · refine Or.inl ⟨m, by omega, hs, ?_⟩
        cases hv : trace (p + m) <;> cases state <;> simp_all

theorem getSignalLoop_stuck_world (trace : Nat → Bool) (self : DHT) (usTimeOut : Int)
    (state : Bool) :
    ∀ (m : Nat) (uSec : Int) (hw : Hw), Stuck trace hw.polls state (m + 1) →
      uSec + m = usTimeOut + 1 →
      (DHT.getSignalLoop trace self usTimeOut state uSec hw).2.polls = hw.polls + m + 1 ∧
      (DHT.getSignalLoop trace self usTimeOut state uSec hw).2.events
        = hw.events ++ (pollEvents self.DHTgpio state m
            ++ [Event.getLevel self.DHTgpio state]) := by
  intro m
  induction m with
  | zero =>
    intro uSec hw hs he
    have h0 : trace hw.polls = state := by simpa using hs 0 (by omega)
    have hgt : uSec > usTimeOut := by omega
    rw [DHT.getSignalLoop]
    simp [gpio_get_level, h0, hgt, pollEvents]
  | succ m ih =>
    intro uSec hw hs he
    have h0 : trace hw.polls = state := by simpa using hs 0 (by omega)
    have hlt : ¬ uSec > usTimeOut := by omega
    rw [DHT.getSignalLoop]
    simp only [gpio_get_level, h0, if_true, hlt, if_false]
    have hs2 : Stuck trace (ets_delay_us 1
        { polls := hw.polls + 1,
          events := hw.events ++ [Event.getLevel self.DHTgpio state] }).polls state (m + 1) := by
      intro i hi
      have := hs (i + 1) (by omega)
      simpa [ets_delay_us, Hw.record, Nat.add_assoc, Nat.add_comm 1 i] using this
    obtain ⟨h1, h2⟩ := ih (uSec + 1) _ hs2 (by push_cast at he ⊢; omega)
    refine ⟨?_, ?_⟩
    · rw [h1]; simp [ets_delay_us, Hw.record]; omega
    · rw [h2]; simp [ets_delay_us, Hw.record, pollEvents]

/-- Every run of the Signal Timer is one of two: the pin leaves the awaited
level after `n ≤ usTimeOut + 1` polls and `n` is returned, or the pin stays at
the awaited level for `usTimeOut + 2` polls and `-1` is returned. -/
theorem getSignalLevel_cases (trace : Nat → Bool) (self : DHT) (usTimeOut : Int) (state : Bool)
    (hw : Hw) (hT : 0 ≤ usTimeOut + 1) :
    (∃ n : Nat, (n : Int) ≤ usTimeOut + 1 ∧ Pulse trace hw.polls state n ∧
      (DHT.getSignalLevel trace self usTimeOut state hw).1 = n ∧
      (DHT.getSignalLevel trace self usTimeOut state hw).2.polls = hw.polls + n + 1 ∧
      (DHT.getSignalLevel trace self usTimeOut state hw).2.events
        = hw.events ++ (Event.signalTimer usTimeOut state ::
            (pollEvents self.DHTgpio state n ++ [Event.getLevel self.DHTgpio (!state)]))) ∨
    (Stuck trace hw.polls state (usTimeOut + 2).toNat ∧
      (DHT.getSignalLevel trace self usTimeOut state hw).1 = -1 ∧
      (DHT.getSignalLevel trace self usTimeOut state hw).2.polls
        = hw.polls + (usTimeOut + 2).toNat ∧
      (DHT.getSignalLevel trace self usTimeOut state hw).2.events
        = hw.events ++ (Event.signalTimer usTimeOut state ::
            (pollEvents self.DHTgpio state (usTimeOut + 1).toNat
              ++ [Event.getLevel self.DHTgpio state]))) := by
  rcases pulse_or_stuck trace hw.polls state (usTimeOut + 2).toNat with ⟨n, hn, hp⟩ | hs
  · left
    have hle : (n : Int) ≤ usTimeOut + 1 := by omega
    obtain ⟨h1, h2⟩ := getSignalLevel_pulse trace self usTimeOut state n hw hp hle
    refine ⟨n, hle, hp, h1, h2, ?_⟩
    unfold DHT.getSignalLevel
    rw [getSignalLoop_pulse_events trace self usTimeOut state n 0
      (hw.record (Event.signalTimer usTimeOut state)) hp (by omega)]
    simp [Hw.record]
  · right
    have h1 := getSignalLevel_stuck trace self usTimeOut state hw hT hs
    have e : (usTimeOut + 2).toNat = (usTimeOut + 1).toNat + 1 := by omega
    have hs' : Stuck trace (hw.record (Event.signalTimer usTimeOut state)).polls state
        ((usTimeOut + 1).toNat + 1) := by rw [← e]; exact hs
    obtain ⟨h2, h3⟩ := getSignalLoop_stuck_world trace self usTimeOut state
      (usTimeOut + 1).toNat 0 (hw.record (Event.signalTimer usTimeOut state)) hs' (by omega)
    refine ⟨hs, h1, ?_, ?_⟩
    · unfold DHT.getSignalLevel; rw [h2]; simp [Hw.record]; omega
    · unfold DHT.getSignalLevel; rw [h3]; simp [Hw.record]

theorem countP_isPoll_pollEvents (gpio : Nat) (state : Bool) (n : Nat) :
    (pollEvents gpio state n).countP isPoll = n := by
  induction n with
  | zero => rfl
  | succ n ih => simp [pollEvents, List.countP_cons, isPoll, ih]

theorem countP_isDelay_pollEvents (gpio : Nat) (state : Bool) (n : Nat) :
    (pollEvents gpio state n).countP isDelay = n := by
  induction n with
  | zero => rfl
  | succ n ih => simp [pollEvents, List.countP_cons, isDelay, ih]

theorem delay_of_mem_pollEvents (gpio : Nat) (state : Bool) (n : Nat) (e : Event)
    (he : e ∈ pollEvents gpio state n) (hd : isDelay e = true) : e = Event.delayUs 1 := by
  induction n with
  | zero => simp [pollEvents] at he
  | succ n ih =>
    simp only [pollEvents, List.mem_cons] at he
    rcases he with rfl | rfl | he
    · simp [isDelay] at hd
    · rfl
    · exact ih he

theorem timerSegment_counts (gpio : Nat) (usTimeOut : Int) (state lvl : Bool) (n : Nat) :
    (Event.signalTimer usTimeOut state ::
        (pollEvents gpio state n ++ [Event.getLevel gpio lvl])).countP isPoll = n + 1 ∧
    (Event.signalTimer usTimeOut state ::
        (pollEvents gpio state n ++ [Event.getLevel gpio lvl])).countP isDelay = n ∧
    ∀ e ∈ (Event.signalTimer usTimeOut state ::
        (pollEvents gpio state n ++ [Event.getLevel gpio lvl])),
      isDelay e = true → e = Event.delayUs 1 := by
  refine ⟨?_, ?_, ?_⟩
  · rw [List.countP_cons, List.countP_append, countP_isPoll_pollEvents]
    simp [List.countP_cons, isPoll]
  · rw [List.countP_cons, List.countP_append, countP_isDelay_pollEvents]
    simp [List.countP_cons, isDelay]
  · intro e he hd
    rw [List.mem_cons, List.mem_append, List.mem_singleton] at he
    rcases he with rfl | he | rfl
    · simp [isDelay] at hd
    · exact delay_of_mem_pollEvents _ _ _ e he hd
    · simp [isDelay] at hd

theorem getSignalLevel_lateEdge :
    (DHT.getSignalLevel lateEdgeTrace newDHT 85 false Hw.init).1 = 86 := by
  have hp : Pulse lateEdgeTrace Hw.init.polls false 86 := by
    have h := pulseTrain_traceOf true [(false, 86)] []
    exact (by simpa [pulseLevels, Hw.init, lateEdgeTrace] using h.1)
  have h := (getSignalLevel_pulse lateEdgeTrace newDHT 85 false 86 Hw.init hp (by norm_num)).1
  simpa using h

/-! ## Every read, pulse by pulse -/

theorem getSignalLevel_neg_iff (trace : Nat → Bool) (self : DHT) (usTimeOut : Int)
    (state : Bool) (hw : Hw) (hT : 0 ≤ usTimeOut + 1) :
    (DHT.getSignalLevel trace self usTimeOut state hw).1 < 0
      ↔ (DHT.getSignalLevel trace self usTimeOut state hw).1 = -1 := by
  rcases getSignalLevel_cases trace self usTimeOut state hw hT with
    ⟨n, _, _, h1, _, _⟩ | ⟨_, h1, _, _⟩
  · rw [h1]; constructor <;> intro h <;> omega
  · rw [h1]; constructor <;> intro _ <;> decide

theorem bitLoop_complete (trace : Nat → Bool) (self : DHT) :
    ∀ (n : Nat) (st : DecodeState) (hw : Hw) (st' : DecodeState),
      (DHT.bitLoop trace self n st hw).1 = some st' →
      ∃ bits : List (Nat × Nat), bits.length = n ∧ (∀ b ∈ bits, b.1 ≤ 57 ∧ b.2 ≤ 76) ∧
        PulseTrain trace hw.polls (dataPulses bits) ∧
        st' = bits.foldl (fun s b => DHT.storeBit s (b.2 : Int)) st := by
  intro n
  induction n with
  | zero =>
    intro st hw st' h
    simp only [DHT.bitLoop, Option.some.injEq] at h
    exact ⟨[], rfl, by simp, trivial, h.symm⟩
  | succ n ih =>
    intro st hw st' h
    simp only [DHT.bitLoop] at h
    rcases getSignalLevel_cases trace self 56 false hw (by norm_num) with
      ⟨lo, hlo, hplo, a1, a2, _⟩ | ⟨_, a1, _, _⟩
    · rw [a1] at h
      have hn1 : ¬ ((lo : Int) < 0) := by omega
      simp only [hn1, if_false] at h
      rcases getSignalLevel_cases trace self 75 true
          (DHT.getSignalLevel trace self 56 false hw).2 (by norm_num) with
        ⟨hi, hhi, hphi, b1, b2, _⟩ | ⟨_, b1, _, _⟩
      · rw [b1] at h
        have hn2 : ¬ ((hi : Int) < 0) := by omega
        simp only [hn2, if_false] at h
        obtain ⟨bits, hl, hw', hp, hst⟩ := ih _ _ st' h
        refine ⟨(lo, hi) :: bits, by simp [hl], ?_, ?_, ?_⟩
        · intro b hb
          rcases List.mem_cons.mp hb with rfl | hb
          · exact ⟨by omega, by omega⟩
          · exact hw' b hb
        · refine ⟨hplo, ?_, ?_⟩
          · rw [a2] at hphi; exact hphi
          · rw [b2, a2] at hp; exact hp
        · rw [List.foldl_cons]; exact hst
      · rw [b1] at h; simp at h
    · rw [a1] at h; simp at h

theorem readFrame_complete (trace : Nat → Bool) (self : DHT) (hw : Hw) (frame : List Nat)
    (h : (DHT.readFrame trace self hw).1 = some frame) :
    ∃ (ackLow ackHigh : Nat) (bits : List (Nat × Nat)),
      InWindows ackLow ackHigh bits ∧
      PulseTrain trace hw.polls (framePulses ackLow ackHigh bits) ∧
      frame = (bits.foldl (fun s b => DHT.storeBit s (b.2 : Int))
          { dhtData := List.replicate MAXdhtData 0, byteInx := 0, bitInx := 7 }).dhtData := by
  unfold DHT.readFrame at h
  simp only [] at h
  generalize hq : gpio_set_direction self.DHTgpio GpioMode.GPIO_MODE_INPUT
      (ets_delay_us 25 (gpio_set_level self.DHTgpio 1 (ets_delay_us 18000
        (gpio_set_level self.DHTgpio 0
          (gpio_set_direction self.DHTgpio GpioMode.GPIO_MODE_OUTPUT hw))))) = hw0 at h
  have hq0 : hw0.polls = hw.polls := by
    rw [← hq]; simp [gpio_set_direction, gpio_set_level, ets_delay_us, Hw.record]
  rcases getSignalLevel_cases trace self 85 false hw0 (by norm_num) with
    ⟨aL, haL, hpL, a1, a2, _⟩ | ⟨_, a1, _, _⟩
  · rw [a1] at h
    have hn1 : ¬ ((aL : Int) < 0) := by omega
    simp only [hn1, if_false] at h
    rcases getSignalLevel_cases trace self 85 true
        (DHT.getSignalLevel trace self 85 false hw0).2 (by norm_num) with
      ⟨aH, haH, hpH, b1, b2, _⟩ | ⟨_, b1, _, _⟩
    · rw [b1] at h
      have hn2 : ¬ ((aH : Int) < 0) := by omega
      simp only [hn2, if_false, Option.map_eq_some'] at h
      obtain ⟨st', hst, rfl⟩ := h
      obtain ⟨bits, hl, hwin, hp, hfold⟩ := bitLoop_complete trace self 40 _ _ st' hst
      refine ⟨aL, aH, bits, ⟨by omega, by omega, hl, hwin⟩, ⟨?_, ?_, ?_⟩, by rw [hfold]⟩
      · rw [hq0] at hpL; exact hpL
      · rw [a2, hq0] at hpH; exact hpH
      · rw [b2, a2, hq0] at hp; exact hp
    · rw [b1] at h; simp at h
  · rw [a1] at h; simp at h

/-! ## Shape of a captured frame, for an arbitrary trace -/

theorem bitLoop_shape (trace : Nat → Bool) (self : DHT) :
    ∀ (n k : Nat) (st : DecodeState) (hw : Hw) (st' : DecodeState),
      k + n = 40 → st.byteInx = k / 8 → st.bitInx = 7 - k % 8 →
      st.dhtData.length = 5 → (∀ j, st.dhtData.getD j 0 < 256) →
      (DHT.bitLoop trace self n st hw).1 = some st' →
      st'.dhtData.length = 5 ∧ ∀ j, st'.dhtData.getD j 0 < 256 := by
  intro n
  induction n with
  | zero =>
    intro k st hw st' _ _ _ hlen hlt h
    simp only [DHT.bitLoop, Option.some.injEq] at h
    subst h
    exact ⟨hlen, hlt⟩
  | succ n ih =>
    intro k st hw st' hk hbyte hbit hlen hlt h
    simp only [DHT.bitLoop] at h
    split at h
    · simp at h
    · split at h
      · simp at h
      · obtain ⟨s1, s2, s3, s4, _⟩ := storeBit_step st
          (DHT.getSignalLevel trace self 75 true
            (DHT.getSignalLevel trace self 56 false hw).2).1 k (by omega) hbyte hbit hlen hlt
        exact ih (k + 1) _ _ st' (by omega) s1 s2 s3 s4 h

theorem readFrame_shape (trace : Nat → Bool) (self : DHT) (hw : Hw) (frame : List Nat)
    (h : (DHT.readFrame trace self hw).1 = some frame) :
    frame.length = 5 ∧ ∀ j, frame.getD j 0 < 256 := by
  unfold DHT.readFrame at h
  simp only [] at h
  split at h
  · simp at h
  · split at h
    · simp at h
    · simp only [Option.map_eq_some'] at h
      obtain ⟨st', hst, rfl⟩ := h
      refine bitLoop_shape trace self 40 0 _ _ st' (by omega) rfl rfl (by simp [MAXdhtData]) ?_ hst
      intro j
      simp only [MAXdhtData, List.getD_eq_getElem?_getD, List.getElem?_replicate]
      split <;> simp

theorem frame_five (frame : List Nat) (hlen : frame.length = 5) :
    ∃ b0 b1 b2 b3 b4, frame = [b0, b1, b2, b3, b4] := by
  match frame, hlen with
  | [b0, b1, b2, b3, b4], _ => exact ⟨b0, b1, b2, b3, b4, rfl⟩

theorem and_0x80_ne_zero (b : Nat) : (b &&& 0x80 ≠ 0) ↔ b.testBit 7 = true := by
  have e : (0x80 : Nat) = 2 ^ 7 := by norm_num
  rw [e]
  constructor
  · intro h
    by_contra hb
    apply h
    apply Nat.eq_of_testBit_eq
    intro i
    rw [Nat.testBit_and, Nat.testBit_two_pow, Nat.zero_testBit]
    by_cases hi : 7 = i
    · subst hi; simp [hb]
    · simp [hi]
  · intro hb h
    have := congrArg (fun x => Nat.testBit x 7) h
    simp only [Nat.testBit_and, Nat.testBit_two_pow_self, hb, Nat.zero_testBit] at this
    exact absurd this (by decide)

theorem and_0x0f (b : Nat) : b &&& 0x0f = b % 16 := by
  have e : (0x0f : Nat) = 2 ^ 4 - 1 := by norm_num
  rw [e, Nat.and_pow_two_sub_one_eq_mod]

theorem and_0xFF (b : Nat) : b &&& 0xFF = b % 256 := by
  have e : (0xFF : Nat) = 2 ^ 8 - 1 := by norm_num
  rw [e, Nat.and_pow_two_sub_one_eq_mod]

/-! ## Value derivation -/

theorem readDHT_of_frame (trace : Nat → Bool) (self : DHT) (hw : Hw) (frame : List Nat)
    (h : (DHT.readFrame trace self hw).1 = some frame) :
    (DHT.readDHT trace self hw).1 = (DHT.deriveReading self frame).1 ∧
    (DHT.readDHT trace self hw).2.1 = (DHT.deriveReading self frame).2 := by
  simp [DHT.readDHT, h]

theorem readDHT_of_timeout (trace : Nat → Bool) (self : DHT) (hw : Hw)
    (h : (DHT.readFrame trace self hw).1 = none) :
    (DHT.readDHT trace self hw).1 = DHTStatus.DHT_TIMEOUT_ERROR ∧
    (DHT.readDHT trace self hw).2.1 = self := by
  simp [DHT.readDHT, h]

theorem deriveReading_status (self : DHT) (b0 b1 b2 b3 b4 : Nat) :
    (DHT.deriveReading self [b0, b1, b2, b3, b4]).1
      = if b4 = (b0 + b1 + b2 + b3) % 256 then DHTStatus.DHT_OK
        else DHTStatus.DHT_CHECKSUM_ERROR := by
  unfold DHT.deriveReading
  simp only [List.getD_cons_zero, List.getD_cons_succ, and_0xFF]
  split <;> rfl

theorem deriveReading_status_ne_timeout (self : DHT) (frame : List Nat) :
    (DHT.deriveReading self frame).1 ≠ DHTStatus.DHT_TIMEOUT_ERROR := by
  unfold DHT.deriveReading
  simp only []
  split <;> simp

theorem deriveReading_gpio (self : DHT) (frame : List Nat) :
    (DHT.deriveReading self frame).2.DHTgpio = self.DHTgpio := by
  unfold DHT.deriveReading
  simp only []
  split <;> rfl

theorem deriveReading_humidity (self : DHT) (b0 b1 b2 b3 b4 : Nat) :
    (DHT.deriveReading self [b0, b1, b2, b3, b4]).2.humidity
      = (b0 : ℚ) + ((b1 &&& 0x0F : Nat) : ℚ) / 10 := by
  unfold DHT.deriveReading
  simp only [List.getD_cons_zero, List.getD_cons_succ]
  split <;> · simp only []; norm_num; ring

theorem deriveReading_temperature (self : DHT) (b0 b1 b2 b3 b4 : Nat) :
    (DHT.deriveReading self [b0, b1, b2, b3, b4]).2.temperature
      = DHT.convertCtoF
          (if b2.testBit 7 then -((b2 : ℚ) + ((b3 &&& 0x0F : Nat) : ℚ) / 10)
           else (b2 : ℚ) + ((b3 &&& 0x0F : Nat) : ℚ) / 10) := by
  unfold DHT.deriveReading
  simp only [List.getD_cons_zero, List.getD_cons_succ, and_0x80_ne_zero]
  split <;> · simp only []; congr 1; split <;> · norm_num; ring

theorem convertCtoF_eq (c : ℚ) : DHT.convertCtoF c = c * (9 / 5) + 32 := by
  unfold DHT.convertCtoF; norm_num

theorem frameDurations_encodes (frame : List Nat) (hlen : frame.length = 5) :
    ∀ m, m < 40 → (40 < ((frameDurations frame).getD m (0, 0)).2 ↔ frameBit frame m = true) := by
  intro m hm
  rw [frameDurations_getD frame m (by omega)]
  cases frameBit frame m <;> simp

theorem readDHT_stuck_low (self : DHT) (hw : Hw) :
    (DHT.readFrame (fun _ => false) self hw).1 = none := by
  unfold DHT.readFrame
  simp only []
  rw [getSignalLevel_stuck (fun _ => false) self 85 false _ (by norm_num) (fun _ _ => rfl)]
  simp

/-! ## The claims -/

/-- C1 (as stated, refuted): on the pin trace that transmits the frame
`[50,1,22,3,77]` to a freshly constructed driver, all pulses arrive and the
checksum byte 77 differs from `(50+1+22+3) & 0xFF`, yet the stored humidity and
temperature after `readDHT` are not the values before the call. -/
theorem C1_counterexample :
    (DHT.readFrame (sensorTrace [50, 1, 22, 3, 77]) newDHT Hw.init).1
        = some [50, 1, 22, 3, 77] ∧
    (77 : Nat) ≠ (50 + 1 + 22 + 3) &&& 0xFF ∧
    ¬ ((DHT.readDHT (sensorTrace [50, 1, 22, 3, 77]) newDHT Hw.init).1
          = DHTStatus.DHT_CHECKSUM_ERROR ∧
       (DHT.readDHT (sensorTrace [50, 1, 22, 3, 77]) newDHT Hw.init).2.1.humidity
          = newDHT.humidity ∧
       (DHT.readDHT (sensorTrace [50, 1, 22, 3, 77]) newDHT Hw.init).2.1.temperature
          = newDHT.temperature) := by
  have hf := readFrame_sensorTrace [50, 1, 22, 3, 77] newDHT Hw.init rfl (by decide) rfl
  refine ⟨hf, by decide, ?_⟩
  rintro ⟨_, hh, _⟩
  rw [(readDHT_of_frame _ _ _ _ hf).2, deriveReading_humidity] at hh
  norm_num [newDHT] at hh

/-- C1 (amended): for every prior stored Reading and every pin trace on which
`readDHT` captures a frame `[b0,b1,b2,b3,b4]` (no Signal Timer call times out)
with `b4 ≠ (b0+b1+b2+b3) & 0xFF`, `readDHT` returns `CHECKSUM`, and the stored
humidity and temperature after the call are the values derived from that frame:
humidity `b0 + (b1 & 0x0F)/10` and temperature `convertCtoF` of
`b2 + (b3 & 0x0F)/10`, negated when bit 7 of `b2` is set.  The bound GPIO is
unchanged. -/
theorem C1_checksum_mismatch_overwrites (trace : Nat → Bool) (self : DHT) (hw : Hw)
    (b0 b1 b2 b3 b4 : Nat)
    (hframe : (DHT.readFrame trace self hw).1 = some [b0, b1, b2, b3, b4])
    (hsum : b4 ≠ (b0 + b1 + b2 + b3) &&& 0xFF) :
    (DHT.readDHT trace self hw).1 = DHTStatus.DHT_CHECKSUM_ERROR ∧
    (DHT.readDHT trace self hw).2.1.humidity = (b0 : ℚ) + ((b1 &&& 0x0F : Nat) : ℚ) / 10 ∧
    (DHT.readDHT trace self hw).2.1.temperature
      = DHT.convertCtoF
          (if b2.testBit 7 then -((b2 : ℚ) + ((b3 &&& 0x0F : Nat) : ℚ) / 10)
           else (b2 : ℚ) + ((b3 &&& 0x0F : Nat) : ℚ) / 10) ∧
    (DHT.readDHT trace self hw).2.1.DHTgpio = self.DHTgpio := by
  obtain ⟨h1, h2⟩ := readDHT_of_frame trace self hw _ hframe
  rw [and_0xFF] at hsum
  refine ⟨?_, ?_, ?_, ?_⟩
  · rw [h1, deriveReading_status, if_neg hsum]
  · rw [h2, deriveReading_humidity]
  · rw [h2, deriveReading_temperature]
  · rw [h2, deriveReading_gpio]

/-- Witness for C1 (amended): the trace that transmits `[50,1,22,3,77]`. -/
theorem C1_checksum_mismatch_overwrites_witness :
    ((DHT.readFrame (sensorTrace [50, 1, 22, 3, 77]) newDHT Hw.init).1
        = some [50, 1, 22, 3, 77] ∧
     (77 : Nat) ≠ (50 + 1 + 22 + 3) &&& 0xFF) ∧
    ((DHT.readDHT (sensorTrace [50, 1, 22, 3, 77]) newDHT Hw.init).1
        = DHTStatus.DHT_CHECKSUM_ERROR ∧
     (DHT.readDHT (sensorTrace [50, 1, 22, 3, 77]) newDHT Hw.init).2.1.humidity
        = ((50 : Nat) : ℚ) + ((1 &&& 0x0F : Nat) : ℚ) / 10 ∧
     (DHT.readDHT (sensorTrace [50, 1, 22, 3, 77]) newDHT Hw.init).2.1.temperature
        = DHT.convertCtoF
            (if (22 : Nat).testBit 7 then -(((22 : Nat) : ℚ) + ((3 &&& 0x0F : Nat) : ℚ) / 10)
             else ((22 : Nat) : ℚ) + ((3 &&& 0x0F : Nat) : ℚ) / 10) ∧
     (DHT.readDHT (sensorTrace [50, 1, 22, 3, 77]) newDHT Hw.init).2.1.DHTgpio
        = newDHT.DHTgpio) :=
  ⟨⟨readFrame_sensorTrace [50, 1, 22, 3, 77] newDHT Hw.init rfl (by decide) rfl, by decide⟩,
   C1_checksum_mismatch_overwrites (sensorTrace [50, 1, 22, 3, 77]) newDHT Hw.init 50 1 22 3 77
     (readFrame_sensorTrace [50, 1, 22, 3, 77] newDHT Hw.init rfl (by decide) rfl) (by decide)⟩

/-- C2: for every prior stored Reading and every pin trace, if `readDHT`
returns `TIMEOUT` (in the acknowledge phase or in any bit iteration), the
driver state after the call, in particular the stored humidity and
temperature, equals the state before the call. -/
theorem C2_timeout_keeps_reading (trace : Nat → Bool) (self : DHT) (hw : Hw)
    (h : (DHT.readDHT trace self hw).1 = DHTStatus.DHT_TIMEOUT_ERROR) :
    (DHT.readDHT trace self hw).2.1.humidity = self.humidity ∧
    (DHT.readDHT trace self hw).2.1.temperature = self.temperature ∧
    (DHT.readDHT trace self hw).2.1 = self := by
  cases hf : (DHT.readFrame trace self hw).1 with
  | none =>
    have h2 := (readDHT_of_timeout trace self hw hf).2
    rw [h2]
    exact ⟨rfl, rfl, rfl⟩
  | some frame =>
    have h1 := (readDHT_of_frame trace self hw frame hf).1
    rw [h1] at h
    exact absurd h (deriveReading_status_ne_timeout self frame)

/-- Witness for C2: the data pulse of the last (40th) bit never ends, so the
read times out in the last bit iteration. -/
theorem C2_timeout_keeps_reading_witness :
    (DHT.readDHT lastBitStuckTrace newDHT Hw.init).1 = DHTStatus.DHT_TIMEOUT_ERROR ∧
    ((DHT.readDHT lastBitStuckTrace newDHT Hw.init).2.1.humidity = newDHT.humidity ∧
     (DHT.readDHT lastBitStuckTrace newDHT Hw.init).2.1.temperature = newDHT.temperature ∧
     (DHT.readDHT lastBitStuckTrace newDHT Hw.init).2.1 = newDHT) :=
  ⟨(readDHT_of_timeout _ _ _ (readFrame_lastBitStuck newDHT)).1,
   C2_timeout_keeps_reading lastBitStuckTrace newDHT Hw.init
     (readDHT_of_timeout _ _ _ (readFrame_lastBitStuck newDHT)).1⟩

/-- C3: for every pin trace on which no Signal Timer call times out, so that
`readDHT` captures a frame, the frame has exactly five bytes
`[b0,b1,b2,b3,b4]`, each below 256, and `readDHT` returns `OK` if
`b4 = (b0+b1+b2+b3) mod 256` (sum over unbounded integers, then reduced) and
`CHECKSUM` otherwise. -/
theorem C3_checksum_decides_status (trace : Nat → Bool) (self : DHT) (hw : Hw)
    (frame : List Nat) (hframe : (DHT.readFrame trace self hw).1 = some frame) :
    ∃ b0 b1 b2 b3 b4, frame = [b0, b1, b2, b3, b4] ∧
      (b0 < 256 ∧ b1 < 256 ∧ b2 < 256 ∧ b3 < 256 ∧ b4 < 256) ∧
      (DHT.readDHT trace self hw).1
        = if b4 = (b0 + b1 + b2 + b3) % 256 then DHTStatus.DHT_OK
          else DHTStatus.DHT_CHECKSUM_ERROR := by
  obtain ⟨hlen, hlt⟩ := readFrame_shape trace self hw frame hframe
  obtain ⟨b0, b1, b2, b3, b4, rfl⟩ := frame_five frame hlen
  refine ⟨b0, b1, b2, b3, b4, rfl, ?_, ?_⟩
  · exact ⟨by simpa using hlt 0, by simpa using hlt 1, by simpa using hlt 2,
      by simpa using hlt 3, by simpa using hlt 4⟩
  · rw [(readDHT_of_frame trace self hw _ hframe).1, deriveReading_status]

/-- Witness for C3: the trace that transmits `[50,1,22,3,76]`. -/
theorem C3_checksum_decides_status_witness :
    (DHT.readFrame (sensorTrace [50, 1, 22, 3, 76]) newDHT Hw.init).1
        = some [50, 1, 22, 3, 76] ∧
    ∃ b0 b1 b2 b3 b4, [50, 1, 22, 3, 76] = [b0, b1, b2, b3, b4] ∧
      (b0 < 256 ∧ b1 < 256 ∧ b2 < 256 ∧ b3 < 256 ∧ b4 < 256) ∧
      (DHT.readDHT (sensorTrace [50, 1, 22, 3, 76]) newDHT Hw.init).1
        = if b4 = (b0 + b1 + b2 + b3) % 256 then DHTStatus.DHT_OK
          else DHTStatus.DHT_CHECKSUM_ERROR :=
  ⟨readFrame_sensorTrace [50, 1, 22, 3, 76] newDHT Hw.init rfl (by decide) rfl,
   C3_checksum_decides_status (sensorTrace [50, 1, 22, 3, 76]) newDHT Hw.init [50, 1, 22, 3, 76]
     (readFrame_sensorTrace [50, 1, 22, 3, 76] newDHT Hw.init rfl (by decide) rfl)⟩

/-- C4: bit-decode round trip.  For every five source bytes (each below 256)
and every pin trace whose two acknowledge pulses and 40 low-then-high data
pulse pairs are all measured within their windows, where the measured high
duration of pair `m` exceeds 40 exactly when bit `m` of the source pattern
(most significant bit of each byte first) is 1, the frame assembled by
`readDHT` is the source bytes. -/
theorem C4_bit_decode_round_trip (trace : Nat → Bool) (self : DHT) (hw : Hw)
    (ackLow ackHigh : Nat) (bits : List (Nat × Nat)) (src : List Nat)
    (hlen : src.length = 5) (hbytes : ∀ b ∈ src, b < 256)
    (hp : PulseTrain trace hw.polls (framePulses ackLow ackHigh bits))
    (hwin : InWindows ackLow ackHigh bits)
    (henc : ∀ m, m < 40 → (40 < (bits.getD m (0, 0)).2 ↔ frameBit src m = true)) :
    (DHT.readFrame trace self hw).1 = some src := by
  obtain ⟨g, hg, hg5, hgb, hgbit⟩ := readFrame_decodes trace self hw ackLow ackHigh bits hp hwin
  rw [hg]
  congr 1
  apply frame_ext g src hg5 hlen hgb (getD_lt_of_forall_mem src hbytes)
  intro m hm
  rw [hgbit m hm]
  have := henc m hm
  cases hb : frameBit src m
  · simp only [hb] at this; simpa using this
  · simp only [hb] at this; simpa using this

/-- Witness for C4: the source bytes `[50,1,22,3,76]` on the trace that
transmits them. -/
theorem C4_bit_decode_round_trip_witness :
    ([50, 1, 22, 3, 76].length = 5 ∧ (∀ b ∈ [50, 1, 22, 3, 76], b < 256) ∧
     PulseTrain (sensorTrace [50, 1, 22, 3, 76]) Hw.init.polls
       (framePulses 80 80 (frameDurations [50, 1, 22, 3, 76])) ∧
     InWindows 80 80 (frameDurations [50, 1, 22, 3, 76]) ∧
     ∀ m, m < 40 → (40 < ((frameDurations [50, 1, 22, 3, 76]).getD m (0, 0)).2
        ↔ frameBit [50, 1, 22, 3, 76] m = true)) ∧
    (DHT.readFrame (sensorTrace [50, 1, 22, 3, 76]) newDHT Hw.init).1
      = some [50, 1, 22, 3, 76] :=
  ⟨⟨rfl, by decide, pulseTrain_replay _ true, frameDurations_inWindows _ rfl,
    frameDurations_encodes _ rfl⟩,
   C4_bit_decode_round_trip (sensorTrace [50, 1, 22, 3, 76]) newDHT Hw.init 80 80
     (frameDurations [50, 1, 22, 3, 76]) [50, 1, 22, 3, 76] rfl (by decide)
     (pulseTrain_replay _ true) (frameDurations_inWindows _ rfl)
     (frameDurations_encodes _ rfl)⟩

/-- C5: threshold boundary.  On every pin trace whose 82 pulses are measured
within their windows, at each of the 40 bit positions `m` a measured high
duration of exactly 40 stores bit 0 and one of exactly 41 stores bit 1,
whatever the measured low duration of that bit's start marker. -/
theorem C5_threshold_boundary (trace : Nat → Bool) (self : DHT) (hw : Hw)
    (ackLow ackHigh : Nat) (bits : List (Nat × Nat))
    (hp : PulseTrain trace hw.polls (framePulses ackLow ackHigh bits))
    (hwin : InWindows ackLow ackHigh bits) :
    ∃ frame, (DHT.readFrame trace self hw).1 = some frame ∧
      ∀ m lo, m < 40 →
        (bits.getD m (0, 0) = (lo, 40) → frameBit frame m = false) ∧
        (bits.getD m (0, 0) = (lo, 41) → frameBit frame m = true) := by
  obtain ⟨g, hg, _, _, hgbit⟩ := readFrame_decodes trace self hw ackLow ackHigh bits hp hwin
  refine ⟨g, hg, ?_⟩
  intro m lo hm
  rw [hgbit m hm]
  constructor
  · intro h; rw [h]; simp
  · intro h; rw [h]; simp

/-- Witness for C5: `boundaryTrace`, whose bit `k` has a `k` µs marker and a
40 µs (even `k`) or 41 µs (odd `k`) data pulse. -/
theorem C5_threshold_boundary_witness :
    (PulseTrain boundaryTrace Hw.init.polls (framePulses 80 80 boundaryDurations) ∧
     InWindows 80 80 boundaryDurations) ∧
    ∃ frame, (DHT.readFrame boundaryTrace newDHT Hw.init).1 = some frame ∧
      ∀ m lo, m < 40 →
        (boundaryDurations.getD m (0, 0) = (lo, 40) → frameBit frame m = false) ∧
        (boundaryDurations.getD m (0, 0) = (lo, 41) → frameBit frame m = true) :=
  ⟨⟨pulseTrain_replay _ true, by decide⟩,
   C5_threshold_boundary boundaryTrace newDHT Hw.init 80 80 boundaryDurations
     (pulseTrain_replay _ true) (by decide)⟩

/-- C6: for every captured frame `[b0,b1,b2,b3,b4]` that passes the checksum,
`readDHT` returns `OK` and the stored humidity is `b0 + (b1 & 0x0F) / 10` as
an exact rational; `b1 & 0x0F` is `b1 mod 16`, so the high nibble of `b1`
does not contribute. -/
theorem C6_humidity_on_ok (trace : Nat → Bool) (self : DHT) (hw : Hw)
    (b0 b1 b2 b3 b4 : Nat)
    (hframe : (DHT.readFrame trace self hw).1 = some [b0, b1, b2, b3, b4])
    (hsum : b4 = (b0 + b1 + b2 + b3) &&& 0xFF) :
    (DHT.readDHT trace self hw).1 = DHTStatus.DHT_OK ∧
    (DHT.readDHT trace self hw).2.1.humidity = (b0 : ℚ) + ((b1 &&& 0x0F : Nat) : ℚ) / 10 ∧
    (DHT.readDHT trace self hw).2.1.humidity = (b0 : ℚ) + ((b1 % 16 : Nat) : ℚ) / 10 := by
  obtain ⟨h1, h2⟩ := readDHT_of_frame trace self hw _ hframe
  rw [and_0xFF] at hsum
  refine ⟨?_, ?_, ?_⟩
  · rw [h1, deriveReading_status, if_pos hsum]
  · rw [h2, deriveReading_humidity]
  · rw [h2, deriveReading_humidity, and_0x0f]

/-- Witness for C6: the frame `[50,0xF1,22,3,60]`, whose byte 1 has a non-zero
high nibble. -/
theorem C6_humidity_on_ok_witness :
    ((DHT.readFrame (sensorTrace [50, 0xF1, 22, 3, 60]) newDHT Hw.init).1
        = some [50, 0xF1, 22, 3, 60] ∧
     (60 : Nat) = (50 + 0xF1 + 22 + 3) &&& 0xFF) ∧
    ((DHT.readDHT (sensorTrace [50, 0xF1, 22, 3, 60]) newDHT Hw.init).1 = DHTStatus.DHT_OK ∧
     (DHT.readDHT (sensorTrace [50, 0xF1, 22, 3, 60]) newDHT Hw.init).2.1.humidity
        = ((50 : Nat) : ℚ) + ((0xF1 &&& 0x0F : Nat) : ℚ) / 10 ∧
     (DHT.readDHT (sensorTrace [50, 0xF1, 22, 3, 60]) newDHT Hw.init).2.1.humidity
        = ((50 : Nat) : ℚ) + ((0xF1 % 16 : Nat) : ℚ) / 10) :=
  ⟨⟨readFrame_sensorTrace [50, 0xF1, 22, 3, 60] newDHT Hw.init rfl (by decide) rfl, by decide⟩,
   C6_humidity_on_ok (sensorTrace [50, 0xF1, 22, 3, 60]) newDHT Hw.init 50 0xF1 22 3 60
     (readFrame_sensorTrace [50, 0xF1, 22, 3, 60] newDHT Hw.init rfl (by decide) rfl)
     (by decide)⟩

/-- C7: for every captured frame `[b0,b1,b2,b3,b4]` that passes the checksum,
`readDHT` returns `OK` and the stored temperature is `convertCtoF t`, where
`t = b2 + (b3 & 0x0F) / 10`, negated when bit 7 of `b2` is set, and
`convertCtoF c = c * 1.8 + 32` over exact rationals (a function of `c` alone). -/
theorem C7_temperature_on_ok (trace : Nat → Bool) (self : DHT) (hw : Hw)
    (b0 b1 b2 b3 b4 : Nat)
    (hframe : (DHT.readFrame trace self hw).1 = some [b0, b1, b2, b3, b4])
    (hsum : b4 = (b0 + b1 + b2 + b3) &&& 0xFF) :
    (DHT.readDHT trace self hw).1 = DHTStatus.DHT_OK ∧
    (DHT.readDHT trace self hw).2.1.temperature
      = DHT.convertCtoF
          (if b2.testBit 7 then -((b2 : ℚ) + ((b3 &&& 0x0F : Nat) : ℚ) / 10)
           else (b2 : ℚ) + ((b3 &&& 0x0F : Nat) : ℚ) / 10) ∧
    ∀ c : ℚ, DHT.convertCtoF c = c * (18 / 10) + 32 := by
  obtain ⟨h1, h2⟩ := readDHT_of_frame trace self hw _ hframe
  rw [and_0xFF] at hsum
  refine ⟨?_, ?_, ?_⟩
  · rw [h1, deriveReading_status, if_pos hsum]
  · rw [h2, deriveReading_temperature]
  · intro c; rw [convertCtoF_eq]; norm_num

/-- Witness for C7: the trace that transmits `[50,1,22,3,76]`. -/
theorem C7_temperature_on_ok_witness :
    ((DHT.readFrame (sensorTrace [50, 1, 22, 3, 76]) newDHT Hw.init).1
        = some [50, 1, 22, 3, 76] ∧
     (76 : Nat) = (50 + 1 + 22 + 3) &&& 0xFF) ∧
    ((DHT.readDHT (sensorTrace [50, 1, 22, 3, 76]) newDHT Hw.init).1 = DHTStatus.DHT_OK ∧
     (DHT.readDHT (sensorTrace [50, 1, 22, 3, 76]) newDHT Hw.init).2.1.temperature
       = DHT.convertCtoF
           (if (22 : Nat).testBit 7 then -(((22 : Nat) : ℚ) + ((3 &&& 0x0F : Nat) : ℚ) / 10)
            else ((22 : Nat) : ℚ) + ((3 &&& 0x0F : Nat) : ℚ) / 10) ∧
     ∀ c : ℚ, DHT.convertCtoF c = c * (18 / 10) + 32) :=
  ⟨⟨readFrame_sensorTrace [50, 1, 22, 3, 76] newDHT Hw.init rfl (by decide) rfl, by decide⟩,
   C7_temperature_on_ok (sensorTrace [50, 1, 22, 3, 76]) newDHT Hw.init 50 1 22 3 76
     (readFrame_sensorTrace [50, 1, 22, 3, 76] newDHT Hw.init rfl (by decide) rfl)
     (by decide)⟩

/-- C8 (the code at the failing input): on the trace that transmits the frame
`[50,1,0x96,5,206]` (byte 2 = `0x96`, byte 3 = 5, matching checksum), `readDHT`
returns `OK` and stores `convertCtoF (-150.5) = -238.9`: the magnitude keeps
the sign bit of byte 2.  The value the claim expects is
`convertCtoF (-22.5) = -8.5`. -/
theorem C8_code_at_failing_input :
    (DHT.readFrame (sensorTrace [50, 1, 0x96, 5, 206]) newDHT Hw.init).1
        = some [50, 1, 0x96, 5, 206] ∧
    (DHT.readDHT (sensorTrace [50, 1, 0x96, 5, 206]) newDHT Hw.init).1 = DHTStatus.DHT_OK ∧
    (DHT.readDHT (sensorTrace [50, 1, 0x96, 5, 206]) newDHT Hw.init).2.1.temperature
        = DHT.convertCtoF (-(150 + 5 / 10)) ∧
    (DHT.readDHT (sensorTrace [50, 1, 0x96, 5, 206]) newDHT Hw.init).2.1.temperature
        = -2389 / 10 ∧
    DHT.convertCtoF (-(22 + 5 / 10)) = -17 / 2 ∧
    (DHT.readDHT (sensorTrace [50, 1, 0x96, 5, 206]) newDHT Hw.init).2.1.temperature
        ≠ DHT.convertCtoF (-(22 + 5 / 10)) := by
  have hf := readFrame_sensorTrace [50, 1, 0x96, 5, 206] newDHT Hw.init rfl (by decide) rfl
  obtain ⟨h1, h2⟩ := readDHT_of_frame _ _ _ _ hf
  have ht : (DHT.readDHT (sensorTrace [50, 1, 0x96, 5, 206]) newDHT Hw.init).2.1.temperature
      = -2389 / 10 := by
    rw [h2, deriveReading_temperature, convertCtoF_eq]
    have e1 : (0x96 : Nat).testBit 7 = true := by decide
    have e2 : (5 &&& 0x0F : Nat) = 5 := by decide
    rw [e1, e2]
    norm_num
  refine ⟨hf, ?_, ?_, ht, ?_, ?_⟩
  · rw [h1, deriveReading_status]; decide
  · rw [ht, convertCtoF_eq]; norm_num
  · rw [convertCtoF_eq]; norm_num
  · rw [ht, convertCtoF_eq]; norm_num

/-- C9: end-to-end scenario.  For every pin trace whose acknowledge pulses and
40 data pulse pairs are measured within their windows and whose data pulses
encode the frame bytes `[50,1,22,3,76]` most significant bit first, `readDHT`
returns `OK`, the stored humidity is 50.1 and the stored temperature is 72.14,
as exact rationals. -/
theorem C9_end_to_end (trace : Nat → Bool) (self : DHT) (hw : Hw)
    (ackLow ackHigh : Nat) (bits : List (Nat × Nat))
    (hp : PulseTrain trace hw.polls (framePulses ackLow ackHigh bits))
    (hwin : InWindows ackLow ackHigh bits)
    (henc : ∀ m, m < 40 →
      (40 < (bits.getD m (0, 0)).2 ↔ frameBit [50, 1, 22, 3, 76] m = true)) :
    (DHT.readDHT trace self hw).1 = DHTStatus.DHT_OK ∧
    (DHT.readDHT trace self hw).2.1.humidity = 50.1 ∧
    (DHT.readDHT trace self hw).2.1.temperature = 72.14 := by
  obtain ⟨g, hg, hg5, hgb, hgbit⟩ := readFrame_decodes trace self hw ackLow ackHigh bits hp hwin
  have hgs : g = [50, 1, 22, 3, 76] := by
    apply frame_ext g [50, 1, 22, 3, 76] hg5 rfl hgb (getD_lt_of_forall_mem _ (by decide))
    intro m hm
    rw [hgbit m hm]
    have := henc m hm
    cases hb : frameBit [50, 1, 22, 3, 76] m
    · simp only [hb] at this; simpa using this
    · simp only [hb] at this; simpa using this
  rw [hgs] at hg
  obtain ⟨h1, h2⟩ := readDHT_of_frame trace self hw _ hg
  refine ⟨?_, ?_, ?_⟩
  · rw [h1, deriveReading_status]; decide
  · rw [h2, deriveReading_humidity]
    have e : (1 &&& 0x0F : Nat) = 1 := by decide
    rw [e]; norm_num
  · rw [h2, deriveReading_temperature, convertCtoF_eq]
    have e1 : (22 : Nat).testBit 7 = false := by decide
    have e2 : (3 &&& 0x0F : Nat) = 3 := by decide
    rw [e1, e2]; norm_num

/-- Witness for C9: the trace with 80 µs acknowledge pulses, 50 µs markers and
70 µs / 27 µs data pulses for the bits of `[50,1,22,3,76]`. -/
theorem C9_end_to_end_witness :
    (PulseTrain (sensorTrace [50, 1, 22, 3, 76]) Hw.init.polls
       (framePulses 80 80 (frameDurations [50, 1, 22, 3, 76])) ∧
     InWindows 80 80 (frameDurations [50, 1, 22, 3, 76]) ∧
     ∀ m, m < 40 → (40 < ((frameDurations [50, 1, 22, 3, 76]).getD m (0, 0)).2
        ↔ frameBit [50, 1, 22, 3, 76] m = true)) ∧
    ((DHT.readDHT (sensorTrace [50, 1, 22, 3, 76]) newDHT Hw.init).1 = DHTStatus.DHT_OK ∧
     (DHT.readDHT (sensorTrace [50, 1, 22, 3, 76]) newDHT Hw.init).2.1.humidity = 50.1 ∧
     (DHT.readDHT (sensorTrace [50, 1, 22, 3, 76]) newDHT Hw.init).2.1.temperature = 72.14) :=
  ⟨⟨pulseTrain_replay _ true, frameDurations_inWindows _ rfl, frameDurations_encodes _ rfl⟩,
   C9_end_to_end (sensorTrace [50, 1, 22, 3, 76]) newDHT Hw.init 80 80
     (frameDurations [50, 1, 22, 3, 76]) (pulseTrain_replay _ true)
     (frameDurations_inWindows _ rfl) (frameDurations_encodes _ rfl)⟩

/-- C10: Signal Timer measurement.  For every timeout (`n ≤ usTimeOut` makes
it non-negative), every expected level and every pin trace on which, from the
current poll on, the pin reads the expected level on exactly `n ≤ usTimeOut`
consecutive polls and then the other level, `getSignalLevel` returns exactly
`n`, after `n + 1` polls and `n` one-microsecond delays; when `n = 0` it
returns 0 having made one poll and no delay. -/
theorem C10_signal_timer_measures (trace : Nat → Bool) (self : DHT) (usTimeOut : Int)
    (state : Bool) (hw : Hw) (n : Nat)
    (hp : Pulse trace hw.polls state n) (hn : (n : Int) ≤ usTimeOut) :
    (DHT.getSignalLevel trace self usTimeOut state hw).1 = n ∧
    (DHT.getSignalLevel trace self usTimeOut state hw).2.polls = hw.polls + n + 1 ∧
    (DHT.getSignalLevel trace self usTimeOut state hw).2.events
      = hw.events ++ (Event.signalTimer usTimeOut state ::
          (pollEvents self.DHTgpio state n ++ [Event.getLevel self.DHTgpio (!state)])) ∧
    (n = 0 →
      (DHT.getSignalLevel trace self usTimeOut state hw).1 = 0 ∧
      (DHT.getSignalLevel trace self usTimeOut state hw).2.events
        = hw.events ++ [Event.signalTimer usTimeOut state,
            Event.getLevel self.DHTgpio (!state)]) := by
  obtain ⟨h1, h2⟩ := getSignalLevel_pulse trace self usTimeOut state n hw hp (by omega)
  have h3 : (DHT.getSignalLevel trace self usTimeOut state hw).2.events
      = hw.events ++ (Event.signalTimer usTimeOut state ::
          (pollEvents self.DHTgpio state n ++ [Event.getLevel self.DHTgpio (!state)])) := by
    unfold DHT.getSignalLevel
    rw [getSignalLoop_pulse_events trace self usTimeOut state n 0
      (hw.record (Event.signalTimer usTimeOut state)) hp (by omega)]
    simp [Hw.record]
  refine ⟨h1, h2, h3, ?_⟩
  intro h0
  subst h0
  refine ⟨by simpa using h1, ?_⟩
  rw [h3]; simp [pollEvents]

/-- Witness for C10: timeout 85, expected level low, three low polls and then
a high one. -/
theorem C10_signal_timer_measures_witness :
    (Pulse (traceOf [false, false, false, true] true) Hw.init.polls false 3 ∧
     ((3 : Nat) : Int) ≤ 85) ∧
    ((DHT.getSignalLevel (traceOf [false, false, false, true] true) newDHT 85 false Hw.init).1
        = (3 : Nat) ∧
     (DHT.getSignalLevel (traceOf [false, false, false, true] true) newDHT 85 false Hw.init).2.polls
        = Hw.init.polls + 3 + 1 ∧
     (DHT.getSignalLevel (traceOf [false, false, false, true] true) newDHT 85 false Hw.init).2.events
        = Hw.init.events ++ (Event.signalTimer 85 false ::
            (pollEvents newDHT.DHTgpio false 3 ++ [Event.getLevel newDHT.DHTgpio (!false)])) ∧
     ((3 : Nat) = 0 →
       (DHT.getSignalLevel (traceOf [false, false, false, true] true) newDHT 85 false Hw.init).1
          = 0 ∧
       (DHT.getSignalLevel (traceOf [false, false, false, true] true) newDHT 85 false
          Hw.init).2.events
          = Hw.init.events ++ [Event.signalTimer 85 false,
              Event.getLevel newDHT.DHTgpio (!false)])) :=
  ⟨⟨by decide, by decide⟩,
   C10_signal_timer_measures (traceOf [false, false, false, true] true) newDHT 85 false Hw.init 3
     (by decide) (by decide)⟩

/-! ## The 32-bit counter -/

theorem getSignalLoop32_eq (trace : Nat → Bool) (self : DHT) (usTimeOut : Int) (state : Bool)
    (hmax : usTimeOut < 2147483647) :
    ∀ (fuel : Nat) (uSec : Int) (hw : Hw), 0 ≤ uSec → uSec ≤ usTimeOut + 1 →
      (usTimeOut + 2 - uSec).toNat ≤ fuel →
      DHT.getSignalLoop32 trace self usTimeOut state fuel uSec hw
        = some (DHT.getSignalLoop trace self usTimeOut state uSec hw) := by
  intro fuel
  induction fuel with
  | zero => intro uSec hw h0 h1 hf; omega
  | succ fuel ih =>
    intro uSec hw h0 h1 hf
    rw [DHT.getSignalLoop]
    simp only [DHT.getSignalLoop32]
    by_cases hl : (gpio_get_level trace self.DHTgpio hw).1 = state
    · simp only [hl, if_true]
      by_cases hg : uSec > usTimeOut
      · simp only [hg, if_true]
      · simp only [hg, if_false]
        have hw32 : wrapInt32 (uSec + 1) = uSec + 1 := by
          unfold wrapInt32; omega
        rw [hw32]
        exact ih (uSec + 1) _ (by omega) (by omega) (by omega)
    · simp only [hl, if_false]

/-- Below the largest `int`, the 32-bit Signal Timer returns within
`usTimeOut + 2` polls and agrees with `getSignalLevel`. -/
theorem getSignalLevel32_eq (trace : Nat → Bool) (self : DHT) (usTimeOut : Int) (state : Bool)
    (hw : Hw) (hT : 0 ≤ usTimeOut + 1) (hmax : usTimeOut < 2147483647) (fuel : Nat)
    (hf : (usTimeOut + 2).toNat ≤ fuel) :
    DHT.getSignalLevel32 trace self usTimeOut state fuel hw
      = some (DHT.getSignalLevel trace self usTimeOut state hw) := by
  unfold DHT.getSignalLevel32 DHT.getSignalLevel
  exact getSignalLoop32_eq trace self usTimeOut state hmax fuel 0 _ (by omega) (by omega)
    (by omega)

/-- C11 (as stated, refuted): with timeout 85 and expected level low, on a pin
that reads low on 86 consecutive polls and then high, `getSignalLevel` returns
86, which is not the sentinel and is not a duration `d` with `0 ≤ d ≤ 85`. -/
theorem C11_counterexample :
    (0 : Int) ≤ 85 ∧
    (DHT.getSignalLevel lateEdgeTrace newDHT 85 false Hw.init).1 ≠ -1 ∧
    ¬ (0 ≤ (DHT.getSignalLevel lateEdgeTrace newDHT 85 false Hw.init).1 ∧
       (DHT.getSignalLevel lateEdgeTrace newDHT 85 false Hw.init).1 ≤ 85) := by
  rw [getSignalLevel_lateEdge]
  refine ⟨by norm_num, by norm_num, ?_⟩
  rintro ⟨_, h⟩
  norm_num at h

/-- C11 (amended): for every `usTimeOut` with `0 ≤ usTimeOut < 2^31 - 1` (so
that `usTimeOut + 1` fits the 32-bit counter) and every expected level, the
Signal Timer with the 32-bit counter returns within `usTimeOut + 2` polls what
`getSignalLevel` returns, and `getSignalLevel` returns the sentinel `-1`
exactly when the pin is still at the expected level once the elapsed count
exceeds `usTimeOut` (it reads the expected level on `usTimeOut + 2` consecutive
polls); every non-sentinel value it returns is a duration `d` with
`0 ≤ d ≤ usTimeOut + 1`, the number of consecutive polls at the expected
level, and the sentinel is negative, so it is never such a duration. -/
theorem C11_signal_timer_timeout (trace : Nat → Bool) (self : DHT) (usTimeOut : Int)
    (state : Bool) (hw : Hw) (hT : 0 ≤ usTimeOut) (hmax : usTimeOut < 2147483647) :
    (∀ fuel : Nat, (usTimeOut + 2).toNat ≤ fuel →
      DHT.getSignalLevel32 trace self usTimeOut state fuel hw
        = some (DHT.getSignalLevel trace self usTimeOut state hw)) ∧
    ((DHT.getSignalLevel trace self usTimeOut state hw).1 = -1
      ↔ Stuck trace hw.polls state (usTimeOut + 2).toNat) ∧
    ((DHT.getSignalLevel trace self usTimeOut state hw).1 ≠ -1 →
      0 ≤ (DHT.getSignalLevel trace self usTimeOut state hw).1 ∧
      (DHT.getSignalLevel trace self usTimeOut state hw).1 ≤ usTimeOut + 1 ∧
      Pulse trace hw.polls state (DHT.getSignalLevel trace self usTimeOut state hw).1.toNat) ∧
    ((DHT.getSignalLevel trace self usTimeOut state hw).1 < 0 →
      (DHT.getSignalLevel trace self usTimeOut state hw).1 = -1) := by
  refine ⟨fun fuel hf =>
    getSignalLevel32_eq trace self usTimeOut state hw (by omega) hmax fuel hf, ?_⟩
  rcases getSignalLevel_cases trace self usTimeOut state hw (by omega) with
    ⟨n, hn, hp, h1, _, _⟩ | ⟨hs, h1, _, _⟩
  · rw [h1]
    refine ⟨⟨fun h => by omega, fun hs => ?_⟩, fun _ => ⟨by omega, hn, by simpa using hp⟩,
      fun h => by omega⟩
    have h2 := getSignalLevel_stuck trace self usTimeOut state hw (by omega) hs
    rw [h1] at h2
    omega
  · rw [h1]
    exact ⟨⟨fun _ => hs, fun _ => rfl⟩, fun h => absurd rfl h, fun _ => rfl⟩

/-- Witness for C11 (amended): timeout 85 on a line stuck low. -/
theorem C11_signal_timer_timeout_witness :
    ((0 : Int) ≤ 85 ∧ (85 : Int) < 2147483647) ∧
    ((∀ fuel : Nat, ((85 : Int) + 2).toNat ≤ fuel →
      DHT.getSignalLevel32 (fun _ => false) newDHT 85 false fuel Hw.init
        = some (DHT.getSignalLevel (fun _ => false) newDHT 85 false Hw.init)) ∧
    ((DHT.getSignalLevel (fun _ => false) newDHT 85 false Hw.init).1 = -1
      ↔ Stuck (fun _ => false) Hw.init.polls false ((85 : Int) + 2).toNat) ∧
    ((DHT.getSignalLevel (fun _ => false) newDHT 85 false Hw.init).1 ≠ -1 →
      0 ≤ (DHT.getSignalLevel (fun _ => false) newDHT 85 false Hw.init).1 ∧
      (DHT.getSignalLevel (fun _ => false) newDHT 85 false Hw.init).1 ≤ 85 + 1 ∧
      Pulse (fun _ => false) Hw.init.polls false
        (DHT.getSignalLevel (fun _ => false) newDHT 85 false Hw.init).1.toNat) ∧
    ((DHT.getSignalLevel (fun _ => false) newDHT 85 false Hw.init).1 < 0 →
      (DHT.getSignalLevel (fun _ => false) newDHT 85 false Hw.init).1 = -1)) :=
  ⟨⟨by decide, by decide⟩,
   C11_signal_timer_timeout (fun _ => false) newDHT 85 false Hw.init (by decide) (by decide)⟩

/-- Below the largest `int` the Signal Timer is bounded: for
`0 ≤ usTimeOut < 2^31 - 1`, every expected level and every pin trace, the
32-bit Signal Timer returns within `usTimeOut + 2` polls what `getSignalLevel`
returns, and one call adds to the log at most `usTimeOut + 2` pin polls and at
most `usTimeOut + 1` delays, each of one microsecond. -/
theorem getSignalLevel_bounded (trace : Nat → Bool) (self : DHT) (usTimeOut : Int)
    (state : Bool) (hw : Hw) (hT : 0 ≤ usTimeOut) (hmax : usTimeOut < 2147483647) :
    (∀ fuel : Nat, (usTimeOut + 2).toNat ≤ fuel →
      DHT.getSignalLevel32 trace self usTimeOut state fuel hw
        = some (DHT.getSignalLevel trace self usTimeOut state hw)) ∧
    ∃ added : List Event,
      (DHT.getSignalLevel trace self usTimeOut state hw).2.events = hw.events ++ added ∧
      (DHT.getSignalLevel trace self usTimeOut state hw).2.polls
        = hw.polls + added.countP isPoll ∧
      (added.countP isPoll : Int) ≤ usTimeOut + 2 ∧
      (added.countP isDelay : Int) ≤ usTimeOut + 1 ∧
      ∀ e ∈ added, isDelay e = true → e = Event.delayUs 1 := by
  refine ⟨fun fuel hf =>
    getSignalLevel32_eq trace self usTimeOut state hw (by omega) hmax fuel hf, ?_⟩
  rcases getSignalLevel_cases trace self usTimeOut state hw (by omega) with
    ⟨n, hn, _, _, h2, h3⟩ | ⟨_, _, h2, h3⟩
  · obtain ⟨c1, c2, c3⟩ := timerSegment_counts self.DHTgpio usTimeOut state (!state) n
    refine ⟨_, h3, ?_, ?_, ?_, c3⟩
    · rw [h2, c1]; omega
    · rw [c1]; push_cast; omega
    · rw [c2]; omega
  · obtain ⟨c1, c2, c3⟩ :=
      timerSegment_counts self.DHTgpio usTimeOut state state (usTimeOut + 1).toNat
    refine ⟨_, h3, ?_, ?_, ?_, c3⟩
    · rw [h2, c1]; omega
    · rw [c1]; push_cast; omega
    · rw [c2]; omega

theorem signalTimerCalls_append (xs ys : List Event) :
    signalTimerCalls (xs ++ ys) = signalTimerCalls xs ++ signalTimerCalls ys := by
  induction xs with
  | nil => rfl
  | cons e es ih => cases e <;> simp [signalTimerCalls, ih]

theorem signalTimerCalls_pollEvents (gpio : Nat) (state : Bool) (n : Nat) :
    signalTimerCalls (pollEvents gpio state n) = [] := by
  induction n with
  | zero => rfl
  | succ n ih => simp [pollEvents, signalTimerCalls, ih]

theorem signalTimerCalls_segment (gpio : Nat) (usTimeOut : Int) (state lvl : Bool) (n : Nat) :
    signalTimerCalls (Event.signalTimer usTimeOut state ::
        (pollEvents gpio state n ++ [Event.getLevel gpio lvl])) = [(usTimeOut, state)] := by
  simp [signalTimerCalls, signalTimerCalls_append, signalTimerCalls_pollEvents]

theorem isPassive_pollEvents (gpio : Nat) (state : Bool) (n : Nat) :
    ∀ e ∈ pollEvents gpio state n, isPassive e = true := by
  induction n with
  | zero => intro e he; simp [pollEvents] at he
  | succ n ih =>
    intro e he
    simp only [pollEvents, List.mem_cons] at he
    rcases he with rfl | rfl | he
    · rfl
    · rfl
    · exact ih e he

theorem isPassive_segment (gpio : Nat) (usTimeOut : Int) (state lvl : Bool) (n : Nat) :
    ∀ e ∈ (Event.signalTimer usTimeOut state ::
        (pollEvents gpio state n ++ [Event.getLevel gpio lvl])), isPassive e = true := by
  intro e he
  rw [List.mem_cons, List.mem_append, List.mem_singleton] at he
  rcases he with rfl | he | rfl
  · rfl
  · exact isPassive_pollEvents gpio state n e he
  · rfl

theorem pinDiscipline_passive (es : List Event) (h : ∀ e ∈ es, isPassive e = true) :
    pinDiscipline (some GpioMode.GPIO_MODE_INPUT) es = true := by
  induction es with
  | nil => rfl
  | cons e es ih =>
    have he := h e (List.mem_cons_self _ _)
    have hes := ih (fun x hx => h x (List.mem_cons_of_mem _ hx))
    cases e <;> simp_all [pinDiscipline, isPassive]

/-- The log of a Signal Timer call: one `signalTimer` entry followed by polls
and delays only. -/
theorem getSignalLevel_log (trace : Nat → Bool) (self : DHT) (usTimeOut : Int) (state : Bool)
    (hw : Hw) (hT : 0 ≤ usTimeOut + 1) :
    ∃ seg : List Event,
      (DHT.getSignalLevel trace self usTimeOut state hw).2.events = hw.events ++ seg ∧
      signalTimerCalls seg = [(usTimeOut, state)] ∧
      (∀ e ∈ seg, isPassive e = true) ∧
      ((DHT.getSignalLevel trace self usTimeOut state hw).1 = -1 →
        seg = timedOutCall self.DHTgpio usTimeOut state) := by
  rcases getSignalLevel_cases trace self usTimeOut state hw hT with
    ⟨n, _, _, h1, _, h3⟩ | ⟨_, _, _, h3⟩
  · refine ⟨_, h3, signalTimerCalls_segment _ _ _ _ _, isPassive_segment _ _ _ _ _, ?_⟩
    intro h; rw [h1] at h; omega
  · exact ⟨_, h3, signalTimerCalls_segment _ _ _ _ _, isPassive_segment _ _ _ _ _, fun _ => rfl⟩

theorem runTimers_results (trace : Nat → Bool) (self : DHT) :
    ∀ (sched : List (Int × Bool)) (hw : Hw), (∀ c ∈ sched, 0 ≤ c.1 + 1) →
      (runTimers trace self sched hw).1.length ≤ sched.length ∧
      (-1 ∉ (runTimers trace self sched hw).1 →
        (runTimers trace self sched hw).1.length = sched.length) ∧
      (∀ r ∈ (runTimers trace self sched hw).1.dropLast, 0 ≤ r) ∧
      (∀ r ∈ (runTimers trace self sched hw).1, r < 0 → r = -1) := by
  intro sched
  induction sched with
  | nil => intro hw _; simp [runTimers]
  | cons c rest ih =>
    intro hw hs
    obtain ⟨t, s⟩ := c
    have ht : 0 ≤ t + 1 := hs (t, s) (List.mem_cons_self _ _)
    have hneg := getSignalLevel_neg_iff trace self t s hw ht
    simp only [runTimers]
    by_cases h : (DHT.getSignalLevel trace self t s hw).1 < 0
    · simp only [h, if_true]
      refine ⟨by simp, ?_, by simp, ?_⟩
      · intro hn; exact absurd (by simp [hneg.mp h]) hn
      · intro r hr _; rw [List.mem_singleton] at hr; rw [hr]; exact hneg.mp h
    · simp only [h, if_false]
      obtain ⟨i1, i2, i3, i4⟩ := ih (DHT.getSignalLevel trace self t s hw).2
        (fun c hc => hs c (List.mem_cons_of_mem _ hc))
      refine ⟨by simp; omega, ?_, ?_, ?_⟩
      · intro hn
        simp only [List.mem_cons, not_or] at hn
        simp [i2 hn.2]
      · intro r hr
        cases hq : (runTimers trace self rest (DHT.getSignalLevel trace self t s hw).2).1 with
        | nil => rw [hq] at hr; simp at hr
        | cons q qs =>
          rw [hq] at hr i3
          rw [List.dropLast_cons₂, List.mem_cons] at hr
          rcases hr with rfl | hr
          · omega
          · exact i3 r hr
      · intro r hr hlt
        rcases List.mem_cons.mp hr with rfl | hr
        · exact absurd hlt h
        · exact i4 r hr hlt

theorem runTimers_log (trace : Nat → Bool) (self : DHT) :
    ∀ (sched : List (Int × Bool)) (hw : Hw), (∀ c ∈ sched, 0 ≤ c.1 + 1) →
      ∃ added : List Event,
        (runTimers trace self sched hw).2.events = hw.events ++ added ∧
        signalTimerCalls added = sched.take (runTimers trace self sched hw).1.length ∧
        (∀ e ∈ added, isPassive e = true) ∧
        (-1 ∈ (runTimers trace self sched hw).1 →
          ∃ pre t s, (t, s) ∈ sched ∧ added = pre ++ timedOutCall self.DHTgpio t s) := by
  intro sched
  induction sched with
  | nil =>
    intro hw _
    exact ⟨[], by simp [runTimers], by simp [runTimers, signalTimerCalls], by simp,
      by simp [runTimers]⟩
  | cons c rest ih =>
    intro hw hs
    obtain ⟨t, s⟩ := c
    have ht : 0 ≤ t + 1 := hs (t, s) (List.mem_cons_self _ _)
    obtain ⟨seg, g1, g2, g3, g4⟩ := getSignalLevel_log trace self t s hw ht
    simp only [runTimers]
    by_cases h : (DHT.getSignalLevel trace self t s hw).1 < 0
    · simp only [h, if_true]
      refine ⟨seg, g1, by simpa using g2, g3, ?_⟩
      intro hm
      rw [List.mem_singleton] at hm
      exact ⟨[], t, s, List.mem_cons_self _ _, by rw [g4 hm.symm]; rfl⟩
    · simp only [h, if_false]
      obtain ⟨added, a1, a2, a3, a4⟩ := ih (DHT.getSignalLevel trace self t s hw).2
        (fun c hc => hs c (List.mem_cons_of_mem _ hc))
      refine ⟨seg ++ added, ?_, ?_, ?_, ?_⟩
      · rw [a1, g1, List.append_assoc]
      · rw [signalTimerCalls_append, g2, a2]; simp
      · intro e he
        rcases List.mem_append.mp he with he | he
        · exact g3 e he
        · exact a3 e he
      · intro hm
        rcases List.mem_cons.mp hm with hm | hm
        · exact absurd (by rw [← hm]; decide) h
        · obtain ⟨pre, t', s', hmem, hadd⟩ := a4 hm
          exact ⟨seg ++ pre, t', s', List.mem_cons_of_mem _ hmem, by rw [hadd, List.append_assoc]⟩

theorem bitLoop_runTimers (trace : Nat → Bool) (self : DHT) :
    ∀ (n : Nat) (st : DecodeState) (hw : Hw),
      (DHT.bitLoop trace self n st hw).2 = (runTimers trace self (bitSchedule n) hw).2 ∧
      ((DHT.bitLoop trace self n st hw).1 = none
        ↔ -1 ∈ (runTimers trace self (bitSchedule n) hw).1) := by
  intro n
  induction n with
  | zero => intro st hw; simp [DHT.bitLoop, bitSchedule, runTimers]
  | succ n ih =>
    intro st hw
    have hlo := getSignalLevel_neg_iff trace self 56 false hw (by norm_num)
    have hhi := getSignalLevel_neg_iff trace self 75 true
      (DHT.getSignalLevel trace self 56 false hw).2 (by norm_num)
    simp only [DHT.bitLoop, bitSchedule, runTimers]
    by_cases h1 : (DHT.getSignalLevel trace self 56 false hw).1 < 0
    · simp only [h1, if_true, List.mem_singleton, true_and]
      constructor
      · intro _; exact (hlo.mp h1).symm
      · intro _; trivial
    · simp only [h1, if_false]
      have n1 : ¬ (-1 = (DHT.getSignalLevel trace self 56 false hw).1) := by
        intro e; exact h1 (by rw [← e]; decide)
      by_cases h2 : (DHT.getSignalLevel trace self 75 true
          (DHT.getSignalLevel trace self 56 false hw).2).1 < 0
      · simp only [h2, if_true, List.mem_cons, n1, false_or, true_and]
        constructor
        · intro _; exact Or.inl (hhi.mp h2).symm
        · intro _; trivial
      · simp only [h2, if_false]
        have n2 : ¬ (-1 = (DHT.getSignalLevel trace self 75 true
            (DHT.getSignalLevel trace self 56 false hw).2).1) := by
          intro e; exact h2 (by rw [← e]; decide)
        obtain ⟨i1, i2⟩ := ih (DHT.storeBit st (DHT.getSignalLevel trace self 75 true
          (DHT.getSignalLevel trace self 56 false hw).2).1)
          (DHT.getSignalLevel trace self 75 true (DHT.getSignalLevel trace self 56 false hw).2).2
        refine ⟨i1, ?_⟩
        rw [i2]
        simp only [List.mem_cons, n1, n2, false_or]

theorem startSignal_eq (self : DHT) (hw : Hw) :
    gpio_set_direction self.DHTgpio GpioMode.GPIO_MODE_INPUT
      (ets_delay_us 25 (gpio_set_level self.DHTgpio 1 (ets_delay_us 18000
        (gpio_set_level self.DHTgpio 0
          (gpio_set_direction self.DHTgpio GpioMode.GPIO_MODE_OUTPUT hw))))) = startSignal self hw := by
  simp [gpio_set_direction, gpio_set_level, ets_delay_us, Hw.record, startSignal, startEvents]

theorem readFrame_runTimers (trace : Nat → Bool) (self : DHT) (hw : Hw) :
    (DHT.readFrame trace self hw).2
      = (runTimers trace self timerSchedule (startSignal self hw)).2 ∧
    ((DHT.readFrame trace self hw).1 = none
      ↔ -1 ∈ (runTimers trace self timerSchedule (startSignal self hw)).1) := by
  have hlo := getSignalLevel_neg_iff trace self 85 false (startSignal self hw) (by norm_num)
  have hhi := getSignalLevel_neg_iff trace self 85 true
    (DHT.getSignalLevel trace self 85 false (startSignal self hw)).2 (by norm_num)
  have hb := bitLoop_runTimers trace self 40
    { dhtData := List.replicate MAXdhtData 0, byteInx := 0, bitInx := 7 }
    (DHT.getSignalLevel trace self 85 true
      (DHT.getSignalLevel trace self 85 false (startSignal self hw)).2).2
  unfold DHT.readFrame timerSchedule
  generalize bitSchedule 40 = S at hb ⊢
  simp only [startSignal_eq, runTimers]
  by_cases h1 : (DHT.getSignalLevel trace self 85 false (startSignal self hw)).1 < 0
  · simp only [h1, if_true, List.mem_singleton, true_and]
    constructor
    · intro _; exact (hlo.mp h1).symm
    · intro _; trivial
  · simp only [h1, if_false]
    have n1 : ¬ (-1 = (DHT.getSignalLevel trace self 85 false (startSignal self hw)).1) := by
      intro e; exact h1 (by rw [← e]; decide)
    by_cases h2 : (DHT.getSignalLevel trace self 85 true
        (DHT.getSignalLevel trace self 85 false (startSignal self hw)).2).1 < 0
    · simp only [h2, if_true, List.mem_cons, n1, false_or, true_and]
      constructor
      · intro _; exact Or.inl (hhi.mp h2).symm
      · intro _; trivial
    · simp only [h2, if_false]
      have n2 : ¬ (-1 = (DHT.getSignalLevel trace self 85 true
          (DHT.getSignalLevel trace self 85 false (startSignal self hw)).2).1) := by
        intro e; exact h2 (by rw [← e]; decide)
      obtain ⟨i1, i2⟩ := hb
      refine ⟨i1, ?_⟩
      simp only [List.mem_cons, n1, n2, false_or, Option.map_eq_none']
      exact i2

theorem timerSchedule_nonneg : ∀ c ∈ timerSchedule, 0 ≤ c.1 + 1 := by
  have hb : ∀ n, ∀ c ∈ bitSchedule n, 0 ≤ c.1 + 1 := by
    intro n
    induction n with
    | zero => intro c hc; simp [bitSchedule] at hc
    | succ n ih =>
      intro c hc
      simp only [bitSchedule, List.mem_cons] at hc
      rcases hc with rfl | rfl | hc
      · norm_num
      · norm_num
      · exact ih c hc
  intro c hc
  simp only [timerSchedule, List.mem_cons] at hc
  rcases hc with rfl | rfl | hc
  · norm_num
  · norm_num
  · exact hb 40 c hc

theorem bitSchedule_length (n : Nat) : (bitSchedule n).length = 2 * n := by
  induction n with
  | zero => rfl
  | succ n ih => simp [bitSchedule, ih]; omega

theorem timerSchedule_length : timerSchedule.length = 82 := by
  simp [timerSchedule, bitSchedule_length]

theorem readDHT_world (trace : Nat → Bool) (self : DHT) (hw : Hw) :
    (DHT.readDHT trace self hw).2.2 = (DHT.readFrame trace self hw).2 := by
  unfold DHT.readDHT
  simp only []
  split <;> rfl

theorem readDHT_timeout_iff (trace : Nat → Bool) (self : DHT) (hw : Hw) :
    (DHT.readDHT trace self hw).1 = DHTStatus.DHT_TIMEOUT_ERROR
      ↔ (DHT.readFrame trace self hw).1 = none := by
  cases hf : (DHT.readFrame trace self hw).1 with
  | none => simp [(readDHT_of_timeout trace self hw hf).1]
  | some frame =>
    rw [(readDHT_of_frame trace self hw frame hf).1]
    simp [deriveReading_status_ne_timeout]

theorem readDHT_status_cases (trace : Nat → Bool) (self : DHT) (hw : Hw) :
    (DHT.readDHT trace self hw).1 = DHTStatus.DHT_TIMEOUT_ERROR ∨
    (DHT.readDHT trace self hw).1 = DHTStatus.DHT_OK ∨
    (DHT.readDHT trace self hw).1 = DHTStatus.DHT_CHECKSUM_ERROR := by
  cases (DHT.readDHT trace self hw).1 <;> simp

theorem timerSchedule_mem (c : Int × Bool) (hc : c ∈ timerSchedule) :
    c = (85, false) ∨ c = (85, true) ∨ c = (56, false) ∨ c = (75, true) := by
  have hb : ∀ n, ∀ c ∈ bitSchedule n, c = ((56 : Int), false) ∨ c = ((75 : Int), true) := by
    intro n
    induction n with
    | zero => intro c hc; simp [bitSchedule] at hc
    | succ n ih =>
      intro c hc
      simp only [bitSchedule, List.mem_cons] at hc
      rcases hc with rfl | rfl | hc
      · exact Or.inl rfl
      · exact Or.inr rfl
      · exact ih c hc
  simp only [timerSchedule, List.mem_cons] at hc
  rcases hc with rfl | rfl | hc
  · exact Or.inl rfl
  · exact Or.inr (Or.inl rfl)
  · rcases hb 40 c hc with h | h
    · exact Or.inr (Or.inr (Or.inl h))
    · exact Or.inr (Or.inr (Or.inr h))

/-- C13: for every pin trace, `readDHT` returns `TIMEOUT` if and only if one
of its Signal Timer calls (the scheduled calls, made in order from the world
left by the start signal) returns the sentinel `-1`.  The world after the read
is the world after the run of calls that stops at the first sentinel: every
call before the last one made returned a non-negative value, and on `TIMEOUT`
the log ends with the polls and delays of a timed-out call with arguments
(85, low), (85, high), (56, low) or (75, high), nothing after it.  If the
result is not `TIMEOUT` it is `OK` or `CHECKSUM`. -/
theorem C13_timeout_iff_sentinel (trace : Nat → Bool) (self : DHT) (hw : Hw) :
    ((DHT.readDHT trace self hw).1 = DHTStatus.DHT_TIMEOUT_ERROR
      ↔ -1 ∈ (runTimers trace self timerSchedule (startSignal self hw)).1) ∧
    (DHT.readDHT trace self hw).2.2
      = (runTimers trace self timerSchedule (startSignal self hw)).2 ∧
    (∀ r ∈ (runTimers trace self timerSchedule (startSignal self hw)).1.dropLast, 0 ≤ r) ∧
    ((DHT.readDHT trace self hw).1 = DHTStatus.DHT_TIMEOUT_ERROR →
      ∃ pre t s, ((t, s) = ((85 : Int), false) ∨ (t, s) = ((85 : Int), true) ∨
          (t, s) = ((56 : Int), false) ∨ (t, s) = ((75 : Int), true)) ∧
        (DHT.readDHT trace self hw).2.2.events = pre ++ timedOutCall self.DHTgpio t s) ∧
    ((DHT.readDHT trace self hw).1 ≠ DHTStatus.DHT_TIMEOUT_ERROR →
      (DHT.readDHT trace self hw).1 = DHTStatus.DHT_OK ∨
      (DHT.readDHT trace self hw).1 = DHTStatus.DHT_CHECKSUM_ERROR) := by
  obtain ⟨r1, r2⟩ := readFrame_runTimers trace self hw
  obtain ⟨_, _, q3, _⟩ :=
    runTimers_results trace self timerSchedule (startSignal self hw) timerSchedule_nonneg
  obtain ⟨added, a1, _, _, a4⟩ :=
    runTimers_log trace self timerSchedule (startSignal self hw) timerSchedule_nonneg
  refine ⟨?_, ?_, q3, ?_, ?_⟩
  · rw [readDHT_timeout_iff, r2]
  · rw [readDHT_world, r1]
  · intro ht
    rw [readDHT_timeout_iff, r2] at ht
    obtain ⟨pre, t, s, hmem, hadd⟩ := a4 ht
    refine ⟨(startSignal self hw).events ++ pre, t, s, timerSchedule_mem _ hmem, ?_⟩
    rw [readDHT_world, r1, a1, hadd, List.append_assoc]
  · intro hne
    rcases readDHT_status_cases trace self hw with h | h | h
    · exact absurd h hne
    · exact Or.inl h
    · exact Or.inr h

/-- C14: for every pin trace on which `readDHT` does not return `TIMEOUT`, the
Signal Timer calls in the log of the read, after the start signal, are exactly
the 82 scheduled ones in order: (85, low), (85, high), then 40 times (56, low)
followed by (75, high); all 82 return a value, and the captured frame is the
result of storing one bit per iteration, 40 in all, from the measured high
durations. -/
theorem C14_eighty_two_timer_calls (trace : Nat → Bool) (self : DHT) (hw : Hw)
    (h : (DHT.readDHT trace self hw).1 ≠ DHTStatus.DHT_TIMEOUT_ERROR) :
    (∃ added : List Event,
      (DHT.readDHT trace self hw).2.2.events
        = hw.events ++ startEvents self.DHTgpio ++ added ∧
      signalTimerCalls added
        = (85, false) :: (85, true) ::
            (List.replicate 40 [((56 : Int), false), ((75 : Int), true)]).flatten) ∧
    (runTimers trace self timerSchedule (startSignal self hw)).1.length = 82 ∧
    (∀ r ∈ (runTimers trace self timerSchedule (startSignal self hw)).1, 0 ≤ r) ∧
    ∃ (ackLow ackHigh : Nat) (bits : List (Nat × Nat)),
      bits.length = 40 ∧
      PulseTrain trace hw.polls (framePulses ackLow ackHigh bits) ∧
      (DHT.readFrame trace self hw).1
        = some (bits.foldl (fun s b => DHT.storeBit s (b.2 : Int))
            { dhtData := List.replicate MAXdhtData 0, byteInx := 0, bitInx := 7 }).dhtData := by
  obtain ⟨r1, r2⟩ := readFrame_runTimers trace self hw
  obtain ⟨_, q2, _, q4⟩ :=
    runTimers_results trace self timerSchedule (startSignal self hw) timerSchedule_nonneg
  obtain ⟨added, a1, a2, _, _⟩ :=
    runTimers_log trace self timerSchedule (startSignal self hw) timerSchedule_nonneg
  have hnone : ¬ (DHT.readFrame trace self hw).1 = none := by
    rw [← readDHT_timeout_iff]; exact h
  have hno : -1 ∉ (runTimers trace self timerSchedule (startSignal self hw)).1 := by
    rw [← r2]; exact hnone
  have hlen := q2 hno
  rw [timerSchedule_length] at hlen
  refine ⟨⟨added, ?_, ?_⟩, hlen, ?_, ?_⟩
  · rw [readDHT_world, r1, a1]; rfl
  · rw [a2, hlen, ← timerSchedule_length, List.take_length]; rfl
  · intro r hr
    by_contra hneg
    exact hno (by rw [← q4 r hr (by omega)]; exact hr)
  · cases hf : (DHT.readFrame trace self hw).1 with
    | none => exact absurd hf hnone
    | some frame =>
      obtain ⟨aL, aH, bits, hwin, hp, hfold⟩ := readFrame_complete trace self hw frame hf
      exact ⟨aL, aH, bits, hwin.2.2.1, hp, by rw [hfold]⟩

/-- Witness for C14: the trace that transmits `[50,1,22,3,76]`. -/
theorem C14_eighty_two_timer_calls_witness :
    (DHT.readDHT (sensorTrace [50, 1, 22, 3, 76]) newDHT Hw.init).1
        ≠ DHTStatus.DHT_TIMEOUT_ERROR ∧
    ((∃ added : List Event,
      (DHT.readDHT (sensorTrace [50, 1, 22, 3, 76]) newDHT Hw.init).2.2.events
        = Hw.init.events ++ startEvents newDHT.DHTgpio ++ added ∧
      signalTimerCalls added
        = (85, false) :: (85, true) ::
            (List.replicate 40 [((56 : Int), false), ((75 : Int), true)]).flatten) ∧
    (runTimers (sensorTrace [50, 1, 22, 3, 76]) newDHT timerSchedule
        (startSignal newDHT Hw.init)).1.length = 82 ∧
    (∀ r ∈ (runTimers (sensorTrace [50, 1, 22, 3, 76]) newDHT timerSchedule
        (startSignal newDHT Hw.init)).1, 0 ≤ r) ∧
    ∃ (ackLow ackHigh : Nat) (bits : List (Nat × Nat)),
      bits.length = 40 ∧
      PulseTrain (sensorTrace [50, 1, 22, 3, 76]) Hw.init.polls
        (framePulses ackLow ackHigh bits) ∧
      (DHT.readFrame (sensorTrace [50, 1, 22, 3, 76]) newDHT Hw.init).1
        = some (bits.foldl (fun s b => DHT.storeBit s (b.2 : Int))
            { dhtData := List.replicate MAXdhtData 0, byteInx := 0, bitInx := 7 }).dhtData) :=
  ⟨by
    rw [(readDHT_of_frame _ _ _ _
      (readFrame_sensorTrace [50, 1, 22, 3, 76] newDHT Hw.init rfl (by decide) rfl)).1]
    exact deriveReading_status_ne_timeout _ _,
   C14_eighty_two_timer_calls (sensorTrace [50, 1, 22, 3, 76]) newDHT Hw.init (by
    rw [(readDHT_of_frame _ _ _ _
      (readFrame_sensorTrace [50, 1, 22, 3, 76] newDHT Hw.init rfl (by decide) rfl)).1]
    exact deriveReading_status_ne_timeout _ _)⟩

theorem getSignalLevel_first_poll (trace : Nat → Bool) (self : DHT) (usTimeOut : Int)
    (state : Bool) (hw : Hw) (hT : 0 ≤ usTimeOut + 1) :
    ∃ rest : List Event,
      (DHT.getSignalLevel trace self usTimeOut state hw).2.events
        = hw.events ++ (Event.signalTimer usTimeOut state ::
            Event.getLevel self.DHTgpio (trace hw.polls) :: rest) ∧
      ∀ e ∈ rest, isPassive e = true := by
  rcases getSignalLevel_cases trace self usTimeOut state hw hT with
    ⟨n, _, hp, _, _, h3⟩ | ⟨hs, _, _, h3⟩
  · cases n with
    | zero =>
      have h0 : trace hw.polls = !state := by simpa using hp.2
      exact ⟨[], by rw [h3, h0]; rfl, by simp⟩
    | succ k =>
      have h0 : trace hw.polls = state := by simpa using hp.1 0 (Nat.succ_pos k)
      refine ⟨Event.delayUs 1 :: (pollEvents self.DHTgpio state k
        ++ [Event.getLevel self.DHTgpio (!state)]), by rw [h3, h0]; rfl, ?_⟩
      intro e he
      rw [List.mem_cons, List.mem_append, List.mem_singleton] at he
      rcases he with rfl | he | rfl
      · rfl
      · exact isPassive_pollEvents _ _ _ e he
      · rfl
  · have h0 : trace hw.polls = state := by simpa using hs 0 (by omega)
    cases hk : (usTimeOut + 1).toNat with
    | zero =>
      rw [hk] at h3
      exact ⟨[], by rw [h3, h0]; rfl, by simp⟩
    | succ k =>
      rw [hk] at h3
      refine ⟨Event.delayUs 1 :: (pollEvents self.DHTgpio state k
        ++ [Event.getLevel self.DHTgpio state]), by rw [h3, h0]; rfl, ?_⟩
      intro e he
      rw [List.mem_cons, List.mem_append, List.mem_singleton] at he
      rcases he with rfl | he | rfl
      · rfl
      · exact isPassive_pollEvents _ _ _ e he
      · rfl

theorem runTimers_head (trace : Nat → Bool) (self : DHT) (t : Int) (s : Bool)
    (rest : List (Int × Bool)) (hw : Hw) (hs : ∀ c ∈ (t, s) :: rest, 0 ≤ c.1 + 1) :
    ∃ tail : List Event,
      (runTimers trace self ((t, s) :: rest) hw).2.events
        = hw.events ++ (Event.signalTimer t s ::
            Event.getLevel self.DHTgpio (trace hw.polls) :: tail) ∧
      ∀ e ∈ tail, isPassive e = true := by
  obtain ⟨seg, g1, g2⟩ := getSignalLevel_first_poll trace self t s hw
    (hs (t, s) (List.mem_cons_self _ _))
  simp only [runTimers]
  by_cases h : (DHT.getSignalLevel trace self t s hw).1 < 0
  · simp only [h, if_true]
    exact ⟨seg, g1, g2⟩
  · simp only [h, if_false]
    obtain ⟨added, a1, _, a3, _⟩ := runTimers_log trace self rest
      (DHT.getSignalLevel trace self t s hw).2 (fun c hc => hs c (List.mem_cons_of_mem _ hc))
    refine ⟨seg ++ added, by rw [a1, g1]; simp, ?_⟩
    intro e he
    rcases List.mem_append.mp he with he | he
    · exact g2 e he
    · exact a3 e he

/-- C15: start sequence and pin-mode discipline.  On every call, the log of
`readDHT` continues with exactly: set direction output, set level 0, delay
18000 µs, set level 1, delay 25 µs, set direction input, then the first Signal
Timer call (85, low) and its first pin poll; every later event is a poll, a
delay or a Signal Timer entry.  Whatever the direction of the pin before the
call, over the whole call the level is set only in output mode and polled only
in input mode. -/
theorem C15_start_sequence_and_pin_mode (trace : Nat → Bool) (self : DHT) (hw : Hw) :
    ∃ rest : List Event,
      (DHT.readDHT trace self hw).2.2.events
        = hw.events ++
          ([Event.setDirection self.DHTgpio GpioMode.GPIO_MODE_OUTPUT,
            Event.setLevel self.DHTgpio 0, Event.delayUs 18000,
            Event.setLevel self.DHTgpio 1, Event.delayUs 25,
            Event.setDirection self.DHTgpio GpioMode.GPIO_MODE_INPUT] ++
           (Event.signalTimer 85 false ::
             Event.getLevel self.DHTgpio (trace hw.polls) :: rest)) ∧
      (∀ e ∈ rest, isPassive e = true) ∧
      ∀ mode : Option GpioMode,
        pinDiscipline mode
          ([Event.setDirection self.DHTgpio GpioMode.GPIO_MODE_OUTPUT,
            Event.setLevel self.DHTgpio 0, Event.delayUs 18000,
            Event.setLevel self.DHTgpio 1, Event.delayUs 25,
            Event.setDirection self.DHTgpio GpioMode.GPIO_MODE_INPUT] ++
           (Event.signalTimer 85 false ::
             Event.getLevel self.DHTgpio (trace hw.polls) :: rest)) = true := by
  obtain ⟨r1, _⟩ := readFrame_runTimers trace self hw
  obtain ⟨tail, t1, t2⟩ := runTimers_head trace self 85 false ((85, true) :: bitSchedule 40)
    (startSignal self hw) timerSchedule_nonneg
  refine ⟨tail, ?_, t2, ?_⟩
  · rw [readDHT_world, r1]
    show (runTimers trace self ((85, false) :: (85, true) :: bitSchedule 40)
      (startSignal self hw)).2.events = _
    rw [t1]
    simp [startSignal, startEvents]
  · intro mode
    have hp := pinDiscipline_passive tail t2
    simp [pinDiscipline, hp]

theorem runTimers_cons_timeout (trace : Nat → Bool) (self : DHT) (t : Int) (s : Bool)
    (rest : List (Int × Bool)) (hw : Hw)
    (h : (DHT.getSignalLevel trace self t s hw).1 < 0) :
    runTimers trace self ((t, s) :: rest) hw
      = ([(DHT.getSignalLevel trace self t s hw).1], (DHT.getSignalLevel trace self t s hw).2) := by
  simp [runTimers, h]

theorem runTimers_cons_ok (trace : Nat → Bool) (self : DHT) (t : Int) (s : Bool)
    (rest : List (Int × Bool)) (hw : Hw)
    (h : ¬ (DHT.getSignalLevel trace self t s hw).1 < 0) :
    runTimers trace self ((t, s) :: rest) hw
      = ((DHT.getSignalLevel trace self t s hw).1 ::
          (runTimers trace self rest (DHT.getSignalLevel trace self t s hw).2).1,
         (runTimers trace self rest (DHT.getSignalLevel trace self t s hw).2).2) := by
  simp [runTimers, h]

theorem getSignalLevel_of_stuck (trace : Nat → Bool) (self : DHT) (usTimeOut : Int)
    (state : Bool) (hw : Hw) (hT : 0 ≤ usTimeOut + 1)
    (hs : Stuck trace hw.polls state (usTimeOut + 2).toNat) :
    (DHT.getSignalLevel trace self usTimeOut state hw).1 = -1 ∧
    (DHT.getSignalLevel trace self usTimeOut state hw).2.events
      = hw.events ++ timedOutCall self.DHTgpio usTimeOut state := by
  have h1 := getSignalLevel_stuck trace self usTimeOut state hw hT hs
  obtain ⟨seg, g1, _, _, g4⟩ := getSignalLevel_log trace self usTimeOut state hw hT
  exact ⟨h1, by rw [g1, g4 h1]⟩

theorem getSignalLevel_of_edge (trace : Nat → Bool) (self : DHT) (usTimeOut : Int)
    (state : Bool) (hw : Hw) (hT : 0 ≤ usTimeOut + 1) (h0 : trace hw.polls = !state) :
    (DHT.getSignalLevel trace self usTimeOut state hw).1 = 0 ∧
    (DHT.getSignalLevel trace self usTimeOut state hw).2.polls = hw.polls + 1 ∧
    (DHT.getSignalLevel trace self usTimeOut state hw).2.events
      = hw.events ++ [Event.signalTimer usTimeOut state,
          Event.getLevel self.DHTgpio (!state)] := by
  have hp : Pulse trace hw.polls state 0 := ⟨fun i hi => absurd hi (Nat.not_lt_zero i), h0⟩
  obtain ⟨h1, h2⟩ := getSignalLevel_pulse trace self usTimeOut state 0 hw hp (by omega)
  refine ⟨by simpa using h1, h2, ?_⟩
  unfold DHT.getSignalLevel
  rw [getSignalLoop_pulse_events trace self usTimeOut state 0 0
    (hw.record (Event.signalTimer usTimeOut state)) hp (by omega)]
  simp [Hw.record, pollEvents]

/-- C16: absent sensor.  For every pin trace that reads one constant level on
every poll from the start of the read on, `readDHT` returns `TIMEOUT` and
leaves the driver state as it was; after the start signal the only Signal
Timer calls made are acknowledge calls (timeout 85): the low one alone on a
line stuck low, the low one and then the high one on a line held high.  No
data-bit call (timeout 56 or 75) is made. -/
theorem C16_absent_sensor (trace : Nat → Bool) (self : DHT) (hw : Hw) (c : Bool)
    (h : ∀ i, trace (hw.polls + i) = c) :
    (DHT.readDHT trace self hw).1 = DHTStatus.DHT_TIMEOUT_ERROR ∧
    (DHT.readDHT trace self hw).2.1 = self ∧
    ∃ added : List Event,
      (DHT.readDHT trace self hw).2.2.events
        = hw.events ++ startEvents self.DHTgpio ++ added ∧
      signalTimerCalls added
        = (if c then [((85 : Int), false), ((85 : Int), true)] else [((85 : Int), false)]) ∧
      ∀ call ∈ signalTimerCalls added, call.1 = 85 := by
  obtain ⟨r1, r2⟩ := readFrame_runTimers trace self hw
  have key : -1 ∈ (runTimers trace self timerSchedule (startSignal self hw)).1 ∧
      ∃ added : List Event,
        (runTimers trace self timerSchedule (startSignal self hw)).2.events
          = hw.events ++ startEvents self.DHTgpio ++ added ∧
        signalTimerCalls added
          = (if c then [((85 : Int), false), ((85 : Int), true)]
             else [((85 : Int), false)]) := by
    unfold timerSchedule
    generalize bitSchedule 40 = S
    cases c with
    | false =>
      have hs : Stuck trace (startSignal self hw).polls false ((85 : Int) + 2).toNat :=
        fun i _ => h i
      obtain ⟨a1, a2⟩ := getSignalLevel_of_stuck trace self 85 false (startSignal self hw)
        (by norm_num) hs
      rw [runTimers_cons_timeout trace self 85 false _ _ (by rw [a1]; decide)]
      refine ⟨by rw [a1]; simp, timedOutCall self.DHTgpio 85 false, ?_, ?_⟩
      · rw [a2]; rfl
      · exact signalTimerCalls_segment _ _ _ _ _
    | true =>
      have h0 : trace (startSignal self hw).polls = !false := by simpa using h 0
      obtain ⟨a1, a2, a3⟩ := getSignalLevel_of_edge trace self 85 false (startSignal self hw)
        (by norm_num) h0
      have hs : Stuck trace (DHT.getSignalLevel trace self 85 false (startSignal self hw)).2.polls
          true ((85 : Int) + 2).toNat := by
        intro i _
        rw [a2]
        have := h (1 + i)
        simpa [startSignal, Nat.add_assoc] using this
      obtain ⟨b1, b2⟩ := getSignalLevel_of_stuck trace self 85 true _ (by norm_num) hs
      rw [runTimers_cons_ok trace self 85 false _ _ (by rw [a1]; decide)]
      simp only []
      rw [runTimers_cons_timeout trace self 85 true _ _ (by rw [b1]; decide)]
      refine ⟨by rw [b1]; simp, [Event.signalTimer 85 false,
        Event.getLevel self.DHTgpio (!false)] ++ timedOutCall self.DHTgpio 85 true, ?_, ?_⟩
      · rw [b2, a3]; simp [startSignal]
      · rw [signalTimerCalls_append]
        have e := signalTimerCalls_segment self.DHTgpio 85 true true ((85 : Int) + 1).toNat
        simp only [timedOutCall]
        rw [e]
        rfl
  obtain ⟨k1, added, k2, k3⟩ := key
  have hnone : (DHT.readFrame trace self hw).1 = none := r2.mpr k1
  refine ⟨(readDHT_of_timeout trace self hw hnone).1, (readDHT_of_timeout trace self hw hnone).2,
    added, by rw [readDHT_world, r1, k2], k3, ?_⟩
  intro call hc
  rw [k3] at hc
  cases c <;> simp at hc
  · rw [hc]
  · rcases hc with hc | hc <;> rw [hc]

/-- Witness for C16: a line stuck low. -/
theorem C16_absent_sensor_witness :
    (∀ i, (fun _ : Nat => false) (Hw.init.polls + i) = false) ∧
    ((DHT.readDHT (fun _ => false) newDHT Hw.init).1 = DHTStatus.DHT_TIMEOUT_ERROR ∧
     (DHT.readDHT (fun _ => false) newDHT Hw.init).2.1 = newDHT ∧
     ∃ added : List Event,
       (DHT.readDHT (fun _ => false) newDHT Hw.init).2.2.events
         = Hw.init.events ++ startEvents newDHT.DHTgpio ++ added ∧
       signalTimerCalls added
         = (if false then [((85 : Int), false), ((85 : Int), true)]
            else [((85 : Int), false)]) ∧
       ∀ call ∈ signalTimerCalls added, call.1 = 85) :=
  ⟨fun _ => rfl, C16_absent_sensor (fun _ => false) newDHT Hw.init false (fun _ => rfl)⟩

/-! ## Independence of the stored Reading -/

theorem getSignalLoop_gpio (trace : Nat → Bool) (self1 self2 : DHT)
    (hg : self1.DHTgpio = self2.DHTgpio) (usTimeOut : Int) (state : Bool) :
    ∀ (m : Nat) (uSec : Int) (hw : Hw), (usTimeOut + 1 - uSec).toNat = m →
      DHT.getSignalLoop trace self1 usTimeOut state uSec hw
        = DHT.getSignalLoop trace self2 usTimeOut state uSec hw := by
  intro m
  induction m using Nat.strong_induction_on with
  | _ m ih =>
    intro uSec hw hm
    conv_lhs => rw [DHT.getSignalLoop]
    conv_rhs => rw [DHT.getSignalLoop]
    simp only [gpio_get_level, hg]
    by_cases h0 : trace hw.polls = state
    · simp only [h0, if_true]
      by_cases h1 : uSec > usTimeOut
      · simp only [h1, if_true]
      · simp only [h1, if_false]
        exact ih (usTimeOut + 1 - (uSec + 1)).toNat (by omega) (uSec + 1) _ rfl
    · simp only [h0, if_false]

theorem getSignalLevel_gpio (trace : Nat → Bool) (self1 self2 : DHT)
    (hg : self1.DHTgpio = self2.DHTgpio) (usTimeOut : Int) (state : Bool) (hw : Hw) :
    DHT.getSignalLevel trace self1 usTimeOut state hw
      = DHT.getSignalLevel trace self2 usTimeOut state hw := by
  unfold DHT.getSignalLevel
  exact getSignalLoop_gpio trace self1 self2 hg usTimeOut state _ 0 _ rfl

theorem bitLoop_gpio (trace : Nat → Bool) (self1 self2 : DHT)
    (hg : self1.DHTgpio = self2.DHTgpio) :
    ∀ (n : Nat) (st : DecodeState) (hw : Hw),
      DHT.bitLoop trace self1 n st hw = DHT.bitLoop trace self2 n st hw := by
  intro n
  induction n with
  | zero => intro st hw; rfl
  | succ n ih =>
    intro st hw
    simp only [DHT.bitLoop, getSignalLevel_gpio trace self1 self2 hg, ih]

theorem readFrame_gpio (trace : Nat → Bool) (self1 self2 : DHT)
    (hg : self1.DHTgpio = self2.DHTgpio) (hw : Hw) :
    DHT.readFrame trace self1 hw = DHT.readFrame trace self2 hw := by
  unfold DHT.readFrame
  simp only [hg, getSignalLevel_gpio trace self1 self2 hg, bitLoop_gpio trace self1 self2 hg]

theorem deriveReading_reading (self1 self2 : DHT) (frame : List Nat) :
    (DHT.deriveReading self1 frame).1 = (DHT.deriveReading self2 frame).1 ∧
    (DHT.deriveReading self1 frame).2.humidity = (DHT.deriveReading self2 frame).2.humidity ∧
    (DHT.deriveReading self1 frame).2.temperature
      = (DHT.deriveReading self2 frame).2.temperature := by
  unfold DHT.deriveReading
  simp only []
  split <;> exact ⟨rfl, rfl, rfl⟩

theorem readDHT_gpio_unchanged (trace : Nat → Bool) (self : DHT) (hw : Hw) :
    (DHT.readDHT trace self hw).2.1.DHTgpio = self.DHTgpio := by
  cases hf : (DHT.readFrame trace self hw).1 with
  | none => rw [(readDHT_of_timeout trace self hw hf).2]
  | some frame => rw [(readDHT_of_frame trace self hw frame hf).2, deriveReading_gpio]

/-- C17: no cross-call state.  For every pin trace and every two driver states
bound to the same GPIO (they may differ in the stored Reading), `readDHT`
returns the same status, captures the same frame with the same hardware
interaction, and on a non-`TIMEOUT` result leaves the same stored humidity and
temperature; the bound GPIO is unchanged by the call. -/
theorem C17_no_cross_call_state (trace : Nat → Bool) (self1 self2 : DHT) (hw : Hw)
    (hg : self1.DHTgpio = self2.DHTgpio) :
    (DHT.readDHT trace self1 hw).1 = (DHT.readDHT trace self2 hw).1 ∧
    DHT.readFrame trace self1 hw = DHT.readFrame trace self2 hw ∧
    (DHT.readDHT trace self1 hw).2.2 = (DHT.readDHT trace self2 hw).2.2 ∧
    ((DHT.readDHT trace self1 hw).1 ≠ DHTStatus.DHT_TIMEOUT_ERROR →
      (DHT.readDHT trace self1 hw).2.1.humidity = (DHT.readDHT trace self2 hw).2.1.humidity ∧
      (DHT.readDHT trace self1 hw).2.1.temperature
        = (DHT.readDHT trace self2 hw).2.1.temperature) ∧
    (DHT.readDHT trace self1 hw).2.1.DHTgpio = self1.DHTgpio ∧
    (DHT.readDHT trace self2 hw).2.1.DHTgpio = self2.DHTgpio := by
  have hrf := readFrame_gpio trace self1 self2 hg hw
  refine ⟨?_, hrf, by rw [readDHT_world, readDHT_world, hrf], ?_,
    readDHT_gpio_unchanged trace self1 hw, readDHT_gpio_unchanged trace self2 hw⟩
  · cases hf : (DHT.readFrame trace self1 hw).1 with
    | none =>
      have hf2 : (DHT.readFrame trace self2 hw).1 = none := by rw [← hrf]; exact hf
      rw [(readDHT_of_timeout trace self1 hw hf).1, (readDHT_of_timeout trace self2 hw hf2).1]
    | some frame =>
      have hf2 : (DHT.readFrame trace self2 hw).1 = some frame := by rw [← hrf]; exact hf
      rw [(readDHT_of_frame trace self1 hw frame hf).1,
        (readDHT_of_frame trace self2 hw frame hf2).1]
      exact (deriveReading_reading self1 self2 frame).1
  · intro hne
    cases hf : (DHT.readFrame trace self1 hw).1 with
    | none => exact absurd ((readDHT_timeout_iff trace self1 hw).mpr hf) hne
    | some frame =>
      have hf2 : (DHT.readFrame trace self2 hw).1 = some frame := by rw [← hrf]; exact hf
      rw [(readDHT_of_frame trace self1 hw frame hf).2,
        (readDHT_of_frame trace self2 hw frame hf2).2]
      exact (deriveReading_reading self1 self2 frame).2

/-- Witness for C17: a fresh driver and one holding an earlier Reading, both
on GPIO 4, on the trace that transmits `[50,1,22,3,76]`. -/
theorem C17_no_cross_call_state_witness :
    newDHT.DHTgpio = usedDHT.DHTgpio ∧
    ((DHT.readDHT (sensorTrace [50, 1, 22, 3, 76]) newDHT Hw.init).1
        = (DHT.readDHT (sensorTrace [50, 1, 22, 3, 76]) usedDHT Hw.init).1 ∧
     DHT.readFrame (sensorTrace [50, 1, 22, 3, 76]) newDHT Hw.init
        = DHT.readFrame (sensorTrace [50, 1, 22, 3, 76]) usedDHT Hw.init ∧
     (DHT.readDHT (sensorTrace [50, 1, 22, 3, 76]) newDHT Hw.init).2.2
        = (DHT.readDHT (sensorTrace [50, 1, 22, 3, 76]) usedDHT Hw.init).2.2 ∧
     ((DHT.readDHT (sensorTrace [50, 1, 22, 3, 76]) newDHT Hw.init).1
          ≠ DHTStatus.DHT_TIMEOUT_ERROR →
       (DHT.readDHT (sensorTrace [50, 1, 22, 3, 76]) newDHT Hw.init).2.1.humidity
          = (DHT.readDHT (sensorTrace [50, 1, 22, 3, 76]) usedDHT Hw.init).2.1.humidity ∧
       (DHT.readDHT (sensorTrace [50, 1, 22, 3, 76]) newDHT Hw.init).2.1.temperature
          = (DHT.readDHT (sensorTrace [50, 1, 22, 3, 76]) usedDHT Hw.init).2.1.temperature) ∧
     (DHT.readDHT (sensorTrace [50, 1, 22, 3, 76]) newDHT Hw.init).2.1.DHTgpio
        = newDHT.DHTgpio ∧
     (DHT.readDHT (sensorTrace [50, 1, 22, 3, 76]) usedDHT Hw.init).2.1.DHTgpio
        = usedDHT.DHTgpio) :=
  ⟨rfl, C17_no_cross_call_state (sensorTrace [50, 1, 22, 3, 76]) newDHT usedDHT Hw.init rfl⟩

/-! ## Indices of the frame buffer -/

theorem bitLoop_split (trace : Nat → Bool) (self : DHT) (m : Nat) :
    ∀ (k : Nat) (st : DecodeState) (hw : Hw) (st' : DecodeState),
      (DHT.bitLoop trace self k st hw).1 = some st' →
      DHT.bitLoop trace self (k + m) st hw
        = DHT.bitLoop trace self m st' (DHT.bitLoop trace self k st hw).2 := by
  intro k
  induction k with
  | zero =>
    intro st hw st' h
    simp only [DHT.bitLoop, Option.some.injEq] at h
    subst h
    simp [DHT.bitLoop]
  | succ k ih =>
    intro st hw st' h
    have e : k + 1 + m = (k + m) + 1 := by omega
    rw [e]
    simp only [DHT.bitLoop] at h ⊢
    by_cases h1 : (DHT.getSignalLevel trace self 56 false hw).1 < 0
    · simp [h1] at h
    · simp only [h1, if_false] at h ⊢
      by_cases h2 : (DHT.getSignalLevel trace self 75 true
          (DHT.getSignalLevel trace self 56 false hw).2).1 < 0
      · simp [h2] at h
      · simp only [h2, if_false] at h ⊢
        exact ih _ _ st' h

theorem storeBit_bitInx (st : DecodeState) (u : Int) (h : st.bitInx ≤ 7) :
    (DHT.storeBit st u).bitInx = (if st.bitInx = 0 then 7 else st.bitInx - 1) ∧
    (DHT.storeBit st u).bitInx ≤ 7 ∧
    (st.bitInx ≠ 0 → (DHT.storeBit st u).bitInx + 1 = st.bitInx) := by
  have e : (DHT.storeBit st u).bitInx = (if st.bitInx = 0 then 7 else st.bitInx - 1) := by
    unfold DHT.storeBit
    simp only []
    split
    · rfl
    · show (st.bitInx - 1) % 256 = st.bitInx - 1
      omega
  rw [e]
  refine ⟨rfl, ?_, ?_⟩
  · split <;> omega
  · intro hne; rw [if_neg hne]; omega

/-- C18: frame-buffer index safety.  On every pin trace, whenever the first
`k` of the 40 bit iterations have completed, the decode loop continues from the
state they left, and in that state the byte index is `k / 8` and the bit index
is `7 - k mod 8`: for `k < 40`, where iteration `k` writes, the byte index is
at most 4 (inside the 5-byte buffer) and the bit index at most 7; the byte
index is 5 exactly when `k = 40`, where the loop is over and returns without a
write.  The bit index is decremented only when it is not 0 (it is reset to 7
instead), so it never wraps. -/
theorem C18_frame_buffer_index_safety (trace : Nat → Bool) (self : DHT) (hw : Hw)
    (k m : Nat) (st : DecodeState) (hkm : k + m = 40)
    (hrun : (DHT.bitLoop trace self k
      { dhtData := List.replicate MAXdhtData 0, byteInx := 0, bitInx := 7 } hw).1 = some st) :
    DHT.bitLoop trace self 40
        { dhtData := List.replicate MAXdhtData 0, byteInx := 0, bitInx := 7 } hw
      = DHT.bitLoop trace self m st (DHT.bitLoop trace self k
          { dhtData := List.replicate MAXdhtData 0, byteInx := 0, bitInx := 7 } hw).2 ∧
    st.byteInx = k / 8 ∧ st.bitInx = 7 - k % 8 ∧ st.dhtData.length = 5 ∧
    (k < 40 → st.byteInx ≤ 4 ∧ st.bitInx ≤ 7 ∧ st.byteInx < st.dhtData.length) ∧
    (st.byteInx = 5 ↔ k = 40) ∧
    (k = 40 → DHT.bitLoop trace self m st (DHT.bitLoop trace self k
          { dhtData := List.replicate MAXdhtData 0, byteInx := 0, bitInx := 7 } hw).2
        = (some st, (DHT.bitLoop trace self k
          { dhtData := List.replicate MAXdhtData 0, byteInx := 0, bitInx := 7 } hw).2)) ∧
    ∀ u : Int,
      (DHT.storeBit st u).bitInx = (if st.bitInx = 0 then 7 else st.bitInx - 1) ∧
      (DHT.storeBit st u).bitInx ≤ 7 ∧
      (st.bitInx ≠ 0 → (DHT.storeBit st u).bitInx + 1 = st.bitInx) := by
  obtain ⟨bits, hl, _, _, hfold⟩ := bitLoop_complete trace self k _ hw st hrun
  obtain ⟨d1, d2, d3, _, _⟩ := decode_fold bits (by omega)
  rw [← hfold, hl] at d1 d2
  rw [← hfold] at d3
  have hsplit := bitLoop_split trace self m k _ hw st hrun
  rw [hkm] at hsplit
  refine ⟨hsplit, d1, d2, d3, ?_, ?_, ?_, ?_⟩
  · intro hk; rw [d1, d2, d3]; omega
  · rw [d1]; omega
  · intro hk
    have hm : m = 0 := by omega
    rw [hm]; rfl
  · intro u
    exact storeBit_bitInx st u (by rw [d2]; omega)

/-- Witness for C18: the first 8 bit iterations on a trace of eight `1` bits. -/
theorem C18_frame_buffer_index_safety_witness :
    (8 + 32 = 40 ∧
     (DHT.bitLoop eightOnesTrace newDHT 8
       { dhtData := List.replicate MAXdhtData 0, byteInx := 0, bitInx := 7 } Hw.init).1
      = some eightOnesState) ∧
    (DHT.bitLoop eightOnesTrace newDHT 40
        { dhtData := List.replicate MAXdhtData 0, byteInx := 0, bitInx := 7 } Hw.init
      = DHT.bitLoop eightOnesTrace newDHT 32 eightOnesState
          (DHT.bitLoop eightOnesTrace newDHT 8
            { dhtData := List.replicate MAXdhtData 0, byteInx := 0, bitInx := 7 } Hw.init).2 ∧
    eightOnesState.byteInx = 8 / 8 ∧ eightOnesState.bitInx = 7 - 8 % 8 ∧
    eightOnesState.dhtData.length = 5 ∧
    (8 < 40 → eightOnesState.byteInx ≤ 4 ∧ eightOnesState.bitInx ≤ 7 ∧
      eightOnesState.byteInx < eightOnesState.dhtData.length) ∧
    (eightOnesState.byteInx = 5 ↔ 8 = 40) ∧
    (8 = 40 → DHT.bitLoop eightOnesTrace newDHT 32 eightOnesState
          (DHT.bitLoop eightOnesTrace newDHT 8
            { dhtData := List.replicate MAXdhtData 0, byteInx := 0, bitInx := 7 } Hw.init).2
        = (some eightOnesState, (DHT.bitLoop eightOnesTrace newDHT 8
            { dhtData := List.replicate MAXdhtData 0, byteInx := 0, bitInx := 7 } Hw.init).2)) ∧
    ∀ u : Int,
      (DHT.storeBit eightOnesState u).bitInx
        = (if eightOnesState.bitInx = 0 then 7 else eightOnesState.bitInx - 1) ∧
      (DHT.storeBit eightOnesState u).bitInx ≤ 7 ∧
      (eightOnesState.bitInx ≠ 0 →
        (DHT.storeBit eightOnesState u).bitInx + 1 = eightOnesState.bitInx)) :=
  ⟨⟨rfl, bitLoop_pulses eightOnesTrace newDHT (List.replicate 8 (50, 70)) _ Hw.init
      (pulseTrain_replay _ true) (fun b hb => by
        rw [List.eq_of_mem_replicate hb]; exact ⟨by omega, by omega⟩)⟩,
   C18_frame_buffer_index_safety eightOnesTrace newDHT Hw.init 8 32 eightOnesState rfl
      (bitLoop_pulses eightOnesTrace newDHT (List.replicate 8 (50, 70)) _ Hw.init
        (pulseTrain_replay _ true) (fun b hb => by
          rw [List.eq_of_mem_replicate hb]; exact ⟨by omega, by omega⟩))⟩

/-- C19: for every pin trace on which `readDHT` does not return `TIMEOUT`,
whether the result is `OK` or `CHECKSUM`, a five-byte frame `[b0,b1,b2,b3,b4]`
was captured and the stored humidity after the call is `b0 + (b1 & 0x0F) / 10`
and the stored temperature is `convertCtoF` of `b2 + (b3 & 0x0F) / 10`, negated
when bit 7 of `b2` is set: the values are stored before the checksum is
compared. -/
theorem C19_reading_written_before_checksum (trace : Nat → Bool) (self : DHT) (hw : Hw)
    (h : (DHT.readDHT trace self hw).1 ≠ DHTStatus.DHT_TIMEOUT_ERROR) :
    ∃ b0 b1 b2 b3 b4,
      (DHT.readFrame trace self hw).1 = some [b0, b1, b2, b3, b4] ∧
      ((DHT.readDHT trace self hw).1 = DHTStatus.DHT_OK ∨
       (DHT.readDHT trace self hw).1 = DHTStatus.DHT_CHECKSUM_ERROR) ∧
      (DHT.readDHT trace self hw).2.1.humidity
        = (b0 : ℚ) + ((b1 &&& 0x0F : Nat) : ℚ) / 10 ∧
      (DHT.readDHT trace self hw).2.1.temperature
        = DHT.convertCtoF
            (if b2.testBit 7 then -((b2 : ℚ) + ((b3 &&& 0x0F : Nat) : ℚ) / 10)
             else (b2 : ℚ) + ((b3 &&& 0x0F : Nat) : ℚ) / 10) := by
  cases hf : (DHT.readFrame trace self hw).1 with
  | none => exact absurd ((readDHT_timeout_iff trace self hw).mpr hf) h
  | some frame =>
    obtain ⟨hlen, _⟩ := readFrame_shape trace self hw frame hf
    obtain ⟨b0, b1, b2, b3, b4, rfl⟩ := frame_five frame hlen
    obtain ⟨_, h2⟩ := readDHT_of_frame trace self hw _ hf
    refine ⟨b0, b1, b2, b3, b4, rfl, ?_, ?_, ?_⟩
    · rcases readDHT_status_cases trace self hw with hs | hs | hs
      · exact absurd hs h
      · exact Or.inl hs
      · exact Or.inr hs
    · rw [h2, deriveReading_humidity]
    · rw [h2, deriveReading_temperature]

/-- Witness for C19: the trace that transmits `[50,1,22,3,77]`, on which the
result is `CHECKSUM`. -/
theorem C19_reading_written_before_checksum_witness :
    (DHT.readDHT (sensorTrace [50, 1, 22, 3, 77]) newDHT Hw.init).1
        ≠ DHTStatus.DHT_TIMEOUT_ERROR ∧
    ∃ b0 b1 b2 b3 b4,
      (DHT.readFrame (sensorTrace [50, 1, 22, 3, 77]) newDHT Hw.init).1
        = some [b0, b1, b2, b3, b4] ∧
      ((DHT.readDHT (sensorTrace [50, 1, 22, 3, 77]) newDHT Hw.init).1 = DHTStatus.DHT_OK ∨
       (DHT.readDHT (sensorTrace [50, 1, 22, 3, 77]) newDHT Hw.init).1
        = DHTStatus.DHT_CHECKSUM_ERROR) ∧
      (DHT.readDHT (sensorTrace [50, 1, 22, 3, 77]) newDHT Hw.init).2.1.humidity
        = (b0 : ℚ) + ((b1 &&& 0x0F : Nat) : ℚ) / 10 ∧
      (DHT.readDHT (sensorTrace [50, 1, 22, 3, 77]) newDHT Hw.init).2.1.temperature
        = DHT.convertCtoF
            (if b2.testBit 7 then -((b2 : ℚ) + ((b3 &&& 0x0F : Nat) : ℚ) / 10)
             else (b2 : ℚ) + ((b3 &&& 0x0F : Nat) : ℚ) / 10) :=
  ⟨by
    rw [(readDHT_of_frame _ _ _ _
      (readFrame_sensorTrace [50, 1, 22, 3, 77] newDHT Hw.init rfl (by decide) rfl)).1]
    exact deriveReading_status_ne_timeout _ _,
   C19_reading_written_before_checksum (sensorTrace [50, 1, 22, 3, 77]) newDHT Hw.init (by
    rw [(readDHT_of_frame _ _ _ _
      (readFrame_sensorTrace [50, 1, 22, 3, 77] newDHT Hw.init rfl (by decide) rfl)).1]
    exact deriveReading_status_ne_timeout _ _)⟩
